import Mathlib

/-!
# Tic-Tac-Toe Pro — verification of the room/move-resolution core

Shallow embedding of the game server in `src/lib/socket.ts` (room registry,
move resolver, card effects, progression/stats updates) and of the minimax AI
in `src/app/page.tsx`, together with theorems checking the natural-language
specification against this embedding.

Conventions:
* a board cell holding the JS value `null` is modelled as `none`;
* the JSON round-trip through `boardState` (`JSON.parse`/`JSON.stringify`)
  is the identity on these arrays, so the board is stored directly;
* JS strings are modelled as `String`, JS array indices as `Nat`
  (a negative or fractional index reads as `undefined` in JS exactly like an
  index past the end, which the model represents by an out-of-range `Nat`).
-/

namespace TTT

/-- The two player marks; a source cell holds the string X, the string O or null. -/
inductive Symbol
  | X
  | O
deriving DecidableEq, Repr

/-- The mark of the other player. -/
def Symbol.other : Symbol → Symbol
  | .X => .O
  | .O => .X

/-- One board cell; `none` models null (an empty cell). -/
abbrev Cell := Option Symbol

/-- The parsed board array (source field `boardState` holds its JSON encoding). -/
abbrev Board := List Cell

/-! ## Board evaluator (`checkWinner` / `isBoardFull`, socket.ts lines 125-166;
page.tsx lines 526-567 contain a character-for-character identical copy). -/

/-- Cell indices of row `i`: `i * size + j` for `j < size`. -/
def rowLine (size i : Nat) : List Nat :=
  (List.range size).map (fun j => i * size + j)

/-- Cell indices of column `i`: `j * size + i` for `j < size`. -/
def colLine (size i : Nat) : List Nat :=
  (List.range size).map (fun j => j * size + i)

/-- Main diagonal indices: `i * size + i`. -/
def diagLine1 (size : Nat) : List Nat :=
  (List.range size).map (fun i => i * size + i)

/-- Anti-diagonal indices: `i * size + (size - 1 - i)`. -/
def diagLine2 (size : Nat) : List Nat :=
  (List.range size).map (fun i => i * size + (size - 1 - i))

/-- All candidate winning lines, in the order the source builds them:
rows, then columns, then the two diagonals. -/
def allLines (size : Nat) : List (List Nat) :=
  (List.range size).map (rowLine size) ++ (List.range size).map (colLine size)
    ++ [diagLine1 size, diagLine2 size]

/-- `values.every(val => val === s)` for the values of `line`; an out-of-range
index reads as `undefined` in JS and as `none` here, failing the test either way. -/
def lineIsAll (board : Board) (line : List Nat) (s : Symbol) : Bool :=
  line.all (fun i => board.getD i none == some s)

/-- `checkWinner`: scans the lines in order; for each line first tests all-X,
then all-O; returns the symbol of the first winning line, else null. -/
def checkWinner (board : Board) (size : Nat) : Option Symbol :=
  (allLines size).findSome? (fun line =>
    if lineIsAll board line Symbol.X then some Symbol.X
    else if lineIsAll board line Symbol.O then some Symbol.O
    else none)

/-- `isBoardFull`: `board.every(cell => cell !== null)`. -/
def isBoardFull (board : Board) : Bool :=
  board.all (fun cell => cell != none)

/-- Result of evaluating a board position. -/
inductive Outcome
  | Win (s : Symbol)
  | Draw
  | Ongoing
deriving DecidableEq, Repr

/-- Board evaluation as combined in the `makeMove` handler (socket.ts lines
530-577): the winner check runs first, the fullness check only when there is
no winner. -/
def evaluate (board : Board) (size : Nat) : Outcome :=
  match checkWinner board size with
  | some s => .Win s
  | none => if isBoardFull board then .Draw else .Ongoing

/-- The spec-side predicate: `s` occupies some complete row, column or main
diagonal of `size` identical non-empty marks. -/
def hasLine (board : Board) (size : Nat) (s : Symbol) : Prop :=
  ∃ line ∈ allLines size, lineIsAll board line s = true

instance (board : Board) (size : Nat) (s : Symbol) : Decidable (hasLine board size s) :=
  inferInstanceAs (Decidable (∃ line ∈ allLines size, _ = true))

/-! ### Lemmas about `findSome?` and the winner check -/

theorem findSome?_eq_some_imp {α β} {f : α → Option β} :
    ∀ {l : List α} {b : β}, l.findSome? f = some b → ∃ a ∈ l, f a = some b := by
  intro l
  induction l with
  | nil => intro b h; simp [List.findSome?] at h
  | cons a as ih =>
    intro b h
    rw [List.findSome?_cons] at h
    cases hfa : f a with
    | some c =>
      rw [hfa] at h
      simp only at h
      exact ⟨a, List.mem_cons_self a as, by rw [hfa, h]⟩
    | none =>
      rw [hfa] at h
      simp only at h
      obtain ⟨x, hx, hfx⟩ := ih h
      exact ⟨x, List.mem_cons_of_mem a hx, hfx⟩

theorem findSome?_isSome_of_mem {α β} {f : α → Option β} {l : List α} {a : α}
    (ha : a ∈ l) (hfa : (f a).isSome) : (l.findSome? f).isSome := by
  induction l with
  | nil => cases ha
  | cons x xs ih =>
    rw [List.findSome?_cons]
    cases hfx : f x with
    | some c => simp
    | none =>
      rcases List.mem_cons.mp ha with h | h
      · subst h; rw [hfx] at hfa; simp at hfa
      · exact ih h

theorem checkWinner_sound {board : Board} {size : Nat} {s : Symbol}
    (h : checkWinner board size = some s) : hasLine board size s := by
  obtain ⟨line, hmem, hline⟩ := findSome?_eq_some_imp h
  refine ⟨line, hmem, ?_⟩
  split_ifs at hline with hX hO
  · cases hline; exact hX
  · cases hline; exact hO

theorem checkWinner_complete {board : Board} {size : Nat} {s : Symbol}
    (h : hasLine board size s) : (checkWinner board size).isSome := by
  obtain ⟨line, hmem, hline⟩ := h
  refine findSome?_isSome_of_mem hmem ?_
  cases s with
  | X => simp [hline]
  | O =>
    by_cases hX : lineIsAll board line Symbol.X
    · simp [hX]
    · simp [hX, hline]

theorem checkWinner_unique {board : Board} {size : Nat} {s : Symbol}
    (h : hasLine board size s) (hother : ¬ hasLine board size s.other) :
    checkWinner board size = some s := by
  have hsome := checkWinner_complete h
  obtain ⟨t, ht⟩ := Option.isSome_iff_exists.mp hsome
  have htline := checkWinner_sound ht
  by_cases hst : s = t
  · rw [hst]; exact ht
  · exfalso
    apply hother
    have hts : t = s.other := by cases s <;> cases t <;> simp_all [Symbol.other]
    rw [← hts]
    exact htline

/-- **C1.** For every board of size N in {3,4,5}, the board evaluation returns
Win for exactly the symbol occupying a complete row, column, or main diagonal
of N identical non-empty marks, never reports both symbols as winners,
returns Draw only when no cell is empty and no win is found, and a board that
is simultaneously full and winning is classified as a Win, never a Draw. -/
theorem evaluate_win_draw_spec (board : Board) (size : Nat)
    (hsize : size = 3 ∨ size = 4 ∨ size = 5)
    (hlen : board.length = size * size) :
    (∀ s, evaluate board size = .Win s → hasLine board size s) ∧
    (∀ s, hasLine board size s → ∃ t, evaluate board size = .Win t ∧ hasLine board size t) ∧
    (∀ s, hasLine board size s → ¬ hasLine board size s.other →
      evaluate board size = .Win s) ∧
    (∀ s t, evaluate board size = .Win s → evaluate board size = .Win t → s = t) ∧
    (evaluate board size = .Draw ↔
      (isBoardFull board = true ∧ ∀ s, ¬ hasLine board size s)) := by
  clear hsize hlen
  refine ⟨?_, ?_, ?_, ?_, ?_⟩
  · intro s h
    unfold evaluate at h
    cases hw : checkWinner board size with
    | some t =>
      rw [hw] at h
      cases h
      exact checkWinner_sound hw
    | none => rw [hw] at h; split_ifs at h
  · intro s h
    have hsome := checkWinner_complete h
    obtain ⟨t, ht⟩ := Option.isSome_iff_exists.mp hsome
    exact ⟨t, by unfold evaluate; rw [ht], checkWinner_sound ht⟩
  · intro s h hother
    have := checkWinner_unique h hother
    unfold evaluate
    rw [this]
  · intro s t hs htw
    unfold evaluate at hs htw
    cases hw : checkWinner board size <;> rw [hw] at hs htw
    · split_ifs at hs
    · cases hs; cases htw; rfl
  · constructor
    · intro h
      unfold evaluate at h
      cases hw : checkWinner board size with
      | some t => rw [hw] at h; cases h
      | none =>
        rw [hw] at h
        refine ⟨?_, ?_⟩
        · by_contra hfull
          simp only [Bool.not_eq_true] at hfull
          rw [hfull] at h
          simp at h
        · intro s hs
          have := checkWinner_complete hs
          rw [hw] at this
          simp at this
    · rintro ⟨hfull, hnoline⟩
      unfold evaluate
      cases hw : checkWinner board size with
      | some t => exact absurd (checkWinner_sound hw) (hnoline t)
      | none => rw [hfull]; rfl

/-- Concrete instantiation of the C1 theorem on the 3×3 board
`[X, O, O, O, X, none, none, none, X]` (X wins on the main diagonal). -/
theorem evaluate_win_draw_spec_witness :
    ((3 : Nat) = 3 ∨ (3 : Nat) = 4 ∨ (3 : Nat) = 5) ∧
    ([some Symbol.X, some Symbol.O, some Symbol.O, some Symbol.O, some Symbol.X,
        none, none, none, some Symbol.X] : Board).length = 3 * 3 ∧
    ((∀ s, evaluate [some Symbol.X, some Symbol.O, some Symbol.O, some Symbol.O,
        some Symbol.X, none, none, none, some Symbol.X] 3 = .Win s →
        hasLine [some Symbol.X, some Symbol.O, some Symbol.O, some Symbol.O,
        some Symbol.X, none, none, none, some Symbol.X] 3 s) ∧
      (∀ s, hasLine [some Symbol.X, some Symbol.O, some Symbol.O, some Symbol.O,
        some Symbol.X, none, none, none, some Symbol.X] 3 s →
        ∃ t, evaluate [some Symbol.X, some Symbol.O, some Symbol.O, some Symbol.O,
        some Symbol.X, none, none, none, some Symbol.X] 3 = .Win t ∧
        hasLine [some Symbol.X, some Symbol.O, some Symbol.O, some Symbol.O,
        some Symbol.X, none, none, none, some Symbol.X] 3 t) ∧
      (∀ s, hasLine [some Symbol.X, some Symbol.O, some Symbol.O, some Symbol.O,
        some Symbol.X, none, none, none, some Symbol.X] 3 s →
        ¬ hasLine [some Symbol.X, some Symbol.O, some Symbol.O, some Symbol.O,
        some Symbol.X, none, none, none, some Symbol.X] 3 s.other →
        evaluate [some Symbol.X, some Symbol.O, some Symbol.O, some Symbol.O,
        some Symbol.X, none, none, none, some Symbol.X] 3 = .Win s) ∧
      (∀ s t, evaluate [some Symbol.X, some Symbol.O, some Symbol.O, some Symbol.O,
        some Symbol.X, none, none, none, some Symbol.X] 3 = .Win s →
        evaluate [some Symbol.X, some Symbol.O, some Symbol.O, some Symbol.O,
        some Symbol.X, none, none, none, some Symbol.X] 3 = .Win t → s = t) ∧
      (evaluate [some Symbol.X, some Symbol.O, some Symbol.O, some Symbol.O,
        some Symbol.X, none, none, none, some Symbol.X] 3 = .Draw ↔
        (isBoardFull [some Symbol.X, some Symbol.O, some Symbol.O, some Symbol.O,
        some Symbol.X, none, none, none, some Symbol.X] = true ∧
        ∀ s, ¬ hasLine [some Symbol.X, some Symbol.O, some Symbol.O, some Symbol.O,
        some Symbol.X, none, none, none, some Symbol.X] 3 s))) :=
  ⟨Or.inl rfl, rfl, evaluate_win_draw_spec _ 3 (Or.inl rfl) rfl⟩

/-! ## Card catalog (`CARD_TYPES`, socket.ts lines 54-122).
Display descriptions are omitted; the resolver only reads `name` and the
existence of a catalog entry for a given type key. -/

/-- Card rarity tier. -/
inductive Rarity
  | COMMON
  | RARE
  | EPIC
  | LEGENDARY
deriving DecidableEq, Repr

/-- A catalog card definition. -/
structure CardDef where
  name : String
  rarity : Rarity
deriving DecidableEq, Repr

/-- The eleven fixed card kinds, keyed by their type key, in source order. -/
def CARD_TYPES : List (String × CardDef) :=
  [("PROTECTION", ⟨"Protection", .RARE⟩),
   ("GIANT", ⟨"Giant", .EPIC⟩),
   ("DOUBLE_MOVE", ⟨"Double Move", .COMMON⟩),
   ("BLOCK", ⟨"Block", .COMMON⟩),
   ("SWAP_CELL", ⟨"Swap Cell", .RARE⟩),
   ("TIME_FREEZE", ⟨"Time Freeze", .RARE⟩),
   ("WILDCARD", ⟨"Wildcard", .EPIC⟩),
   ("SHIELD", ⟨"Shield", .COMMON⟩),
   ("TELEPORT", ⟨"Teleport", .EPIC⟩),
   ("MIRROR", ⟨"Mirror", .LEGENDARY⟩),
   ("RESET", ⟨"Reset", .LEGENDARY⟩)]

/-- `prisma.card.findUnique({ where: { type } })` after `createInitialCards`
has seeded the card table with exactly the `CARD_TYPES` entries. -/
def cardByType (t : String) : Option CardDef :=
  (CARD_TYPES.find? (fun p => p.1 == t)).map (fun p => p.2)

/-- `CARD_TYPES[cardType].name` as read in the `cardUsed` notifications. -/
def cardNameOf (t : String) : String :=
  ((cardByType t).map (fun c => c.name)).getD ""

/-! ## Progression store (prisma `user` / `userCard` tables).
The card table's unique `type` key identifies a card, so a user-card row is
keyed here by `(userId, cardType)` instead of `(userId, cardId)`. -/

/-- One `user` row: per-player counters (row id and email are both derived
from the socket id in the source, so the id is the key). -/
structure UserRec where
  name : String
  wins : Nat
  losses : Nat
  draws : Nat
  streak : Nat
deriving DecidableEq, Repr

/-- One `userCard` row: a holding of one card kind by one user. -/
structure UserCard where
  userId : String
  cardType : String
  quantity : Nat
  used : Nat
deriving DecidableEq, Repr

/-- The prisma database state the game server reads and writes. -/
structure Db where
  users : String → Option UserRec
  userCards : List UserCard

/-- The card snapshot a room player carries (`getUserCards` result); display
metadata is omitted. -/
structure GameCard where
  cardType : String
  quantity : Nat
  used : Nat
deriving DecidableEq, Repr

/-- `getUserCards`: the user's holdings as a snapshot list. -/
def getUserCards (db : Db) (userId : String) : List GameCard :=
  (db.userCards.filter (fun uc => uc.userId == userId)).map
    (fun uc => ⟨uc.cardType, uc.quantity, uc.used⟩)

/-- Update the first list element satisfying `p` (prisma updates a row found
by a unique key). -/
def updateFirst {α} (p : α → Bool) (f : α → α) : List α → List α
  | [] => []
  | a :: as => if p a then f a :: as else a :: updateFirst p f as

/-- Row predicate for the holding of `cardType` by `userId`. -/
def isHolding (userId cardType : String) (uc : UserCard) : Bool :=
  uc.userId == userId && uc.cardType == cardType

/-- `awardCard`: no-op for an unknown card type; otherwise increments the
existing holding's quantity, or inserts a fresh row with quantity 1. -/
def awardCard (db : Db) (userId cardType : String) : Db :=
  match cardByType cardType with
  | none => db
  | some _ =>
    match db.userCards.find? (isHolding userId cardType) with
    | some _ =>
      let cs := updateFirst (isHolding userId cardType)
        (fun uc => { uc with quantity := uc.quantity + 1 }) db.userCards
      { db with userCards := cs }
    | none =>
      { db with userCards := db.userCards ++ [⟨userId, cardType, 1, 0⟩] }

/-- `useUserCard`: returns false for an unknown card type or a missing/empty
holding; otherwise decrements quantity, increments used and returns true. -/
def useUserCard (db : Db) (userId cardType : String) : Db × Bool :=
  match cardByType cardType with
  | none => (db, false)
  | some _ =>
    match db.userCards.find? (isHolding userId cardType) with
    | none => (db, false)
    | some uc =>
      if uc.quantity ≤ 0 then (db, false)
      else
        let cs := updateFirst (isHolding userId cardType)
          (fun r => { r with quantity := r.quantity - 1, used := r.used + 1 })
          db.userCards
        ({ db with userCards := cs }, true)

/-- A recorded game outcome for one player. -/
inductive GameResult
  | win
  | loss
  | draw
deriving DecidableEq, Repr

/-- Point update of the `user` table at one id. -/
def setUser (db : Db) (userId : String) (u : UserRec) : Db :=
  { db with users := fun i => if i == userId then some u else db.users i }

/-- `updateUserStats`: no-op for an unknown user; a win increments the win
counter and the streak and awards Protection at streak 3 and Giant at
streak 5; a loss or draw increments its counter and resets the streak to 0. -/
def updateUserStats (db : Db) (userId : String) (result : GameResult) : Db :=
  match db.users userId with
  | none => db
  | some u =>
    match result with
    | .win =>
      let newStreak := u.streak + 1
      let db1 :=
        if newStreak == 3 then awardCard db userId "PROTECTION"
        else if newStreak == 5 then awardCard db userId "GIANT"
        else db
      setUser db1 userId { u with wins := u.wins + 1, streak := newStreak }
    | .loss => setUser db userId { u with losses := u.losses + 1, streak := 0 }
    | .draw => setUser db userId { u with draws := u.draws + 1, streak := 0 }

/-- The quantity currently held of `cardType` by `userId` (0 when no row). -/
def cardQty (db : Db) (userId cardType : String) : Nat :=
  match db.userCards.find? (isHolding userId cardType) with
  | some uc => uc.quantity
  | none => 0

/-- The used count of `cardType` for `userId` (0 when no row). -/
def cardUsedCount (db : Db) (userId cardType : String) : Nat :=
  match db.userCards.find? (isHolding userId cardType) with
  | some uc => uc.used
  | none => 0

/-! ## Room model (socket.ts interfaces `Player` / `GameRoom`). -/

/-- A room participant. -/
structure Player where
  id : String
  name : String
  symbol : Symbol
  isCurrent : Bool
  cards : List GameCard
deriving DecidableEq, Repr

/-- Room lifecycle status. -/
inductive Status
  | WAITING
  | PLAYING
  | FINISHED
  | ABANDONED
deriving DecidableEq, Repr

/-- One move log entry (`new Date()` timestamps are modelled as a `Nat`
supplied by the caller). -/
structure MoveRec where
  position : Nat
  symbol : Symbol
  playerId : String
  timestamp : Nat
deriving DecidableEq, Repr

/-- One game room (`boardState` is stored parsed, see the header note). -/
structure GameRoom where
  id : String
  roomId : String
  boardSize : Nat
  board : Board
  currentTurn : String
  status : Status
  winner : Option Symbol
  players : List Player
  blockedCells : List Nat
  moveHistory : List MoveRec
deriving DecidableEq, Repr

/-- `createGameRoom` (socket.ts lines 299-312); `id` stands for the generated
uuid. -/
def createGameRoom (id roomId : String) (boardSize : Nat) : GameRoom :=
  { id := id
    roomId := roomId
    boardSize := boardSize
    board := List.replicate (boardSize * boardSize) none
    currentTurn := ""
    status := .WAITING
    winner := none
    players := []
    blockedCells := []
    moveHistory := [] }

/-! ## The room registry: the `gameRooms` map, as an insertion-ordered
association list (the disconnect handler iterates it in insertion order). -/

/-- `gameRooms.get`. -/
def lookupRoom (rooms : List (String × GameRoom)) (roomId : String) : Option GameRoom :=
  (rooms.find? (fun e => e.1 == roomId)).map (fun e => e.2)

/-- `gameRooms.set`: replaces the value in place when the key is present,
appends otherwise (JS Map insertion-order semantics). -/
def setRoom (rooms : List (String × GameRoom)) (roomId : String) (room : GameRoom) :
    List (String × GameRoom) :=
  if rooms.any (fun e => e.1 == roomId) then
    rooms.map (fun e => if e.1 == roomId then (roomId, room) else e)
  else rooms ++ [(roomId, room)]

/-! ## Handlers (`setupSocket`, socket.ts lines 314-618).
Each handler is a function from server state and message data to the new
server state plus the list of emitted notifications. The `gameOver` payload's
refreshed stats block is not inspected by any claim and is omitted. -/

/-- An outbound notification payload. -/
inductive Msg
  | error (message : String)
  | roomCreated (roomId playerId : String)
  | roomJoined (roomId playerId : String)
  | playerJoined
  | playerLeft (playerId : String)
  | cardUsed (cardName playerId : String)
  | gameOver (winner : Option Symbol)
  | gameStateUpdate (room : GameRoom)
deriving DecidableEq, Repr

/-- Where a notification goes: `socket.emit` reaches only the acting client;
`io.to(roomId).emit` is broadcast to the room. -/
inductive Emit
  | toSender (m : Msg)
  | toRoom (roomId : String) (m : Msg)
deriving DecidableEq, Repr

/-- The whole mutable server state: the in-memory `gameRooms` map plus the
prisma database. -/
structure ServerState where
  rooms : List (String × GameRoom)
  db : Db

/-- User upsert shared by the create and join handlers: create the user row
with zeroed counters (prisma scalar defaults) or refresh its display name. -/
def upsertUser (db : Db) (sid name : String) : Db :=
  match db.users sid with
  | none => setUser db sid ⟨name, 0, 0, 0, 0⟩
  | some u => setUser db sid { u with name := name }

/-- The `createRoom` handler; `fresh` stands for the generated uuid. Note the
source never checks whether `roomId` is already taken: `gameRooms.set`
replaces any existing room. -/
def createRoomH (st : ServerState) (sid roomId playerName : String)
    (boardSize : Nat) (fresh : String) : ServerState × List Emit :=
  let db1 := upsertUser st.db sid playerName
  let player : Player := ⟨sid, playerName, .X, true, getUserCards db1 sid⟩
  let room := { createGameRoom fresh roomId boardSize with
                players := [player], currentTurn := sid }
  (⟨setRoom st.rooms roomId room, db1⟩,
   [.toSender (.roomCreated roomId sid), .toRoom roomId (.gameStateUpdate room)])

/-- The `joinRoom` handler. The joiner becomes symbol O and the room status
is set to PLAYING; the stale `winner` field is not touched. -/
def joinRoomH (st : ServerState) (sid roomId playerName : String) :
    ServerState × List Emit :=
  match lookupRoom st.rooms roomId with
  | none => (st, [.toSender (.error "Room not found")])
  | some gameRoom =>
    if 2 ≤ gameRoom.players.length then (st, [.toSender (.error "Room is full")])
    else
      let db1 := upsertUser st.db sid playerName
      let player : Player := ⟨sid, playerName, .O, false, getUserCards db1 sid⟩
      let room := { gameRoom with
                    players := gameRoom.players ++ [player]
                    status := .PLAYING }
      (⟨setRoom st.rooms roomId room, db1⟩,
       [.toSender (.roomJoined roomId sid), .toRoom roomId .playerJoined,
        .toRoom roomId (.gameStateUpdate room)])

/-- The card-effect switch of the `makeMove` handler (socket.ts lines
473-507), acting on the parsed board copy and the room's blocked-cell list;
returns the updated board, the updated blocked list and the notifications it
emits. Card types without a case (all but BLOCK, DOUBLE_MOVE, SWAP_CELL)
fall through with no effect. -/
def cardEffect (gameRoom : GameRoom) (board : Board) (sid roomId cardType : String)
    (position : Nat) : Board × List Nat × List Emit :=
  if cardType == "BLOCK" then
    (board,
     (if gameRoom.blockedCells.contains position then gameRoom.blockedCells
      else gameRoom.blockedCells ++ [position]),
     [.toRoom roomId (.cardUsed (cardNameOf cardType) sid)])
  else if cardType == "DOUBLE_MOVE" then
    (board, gameRoom.blockedCells, [.toRoom roomId (.cardUsed (cardNameOf cardType) sid)])
  else if cardType == "SWAP_CELL" then
    match (gameRoom.players.find? (fun p => p.id != sid)).map (fun p => p.symbol) with
    | none => (board, gameRoom.blockedCells, [])
    | some opponentSymbol =>
      if board.getD position none == some opponentSymbol then
        match (gameRoom.players.find? (fun p => p.id == sid)).map (fun p => p.symbol) with
        | none => (board, gameRoom.blockedCells, [])
        | some playerSymbol =>
          match (List.range board.length).filter
              (fun i => board.getD i none == some playerSymbol) with
          | [] => (board, gameRoom.blockedCells, [])
          | swapPosition :: _ =>
            ((board.set position (some playerSymbol)).set swapPosition (some opponentSymbol),
             gameRoom.blockedCells,
             [.toRoom roomId (.cardUsed (cardNameOf cardType) sid)])
      else (board, gameRoom.blockedCells, [])
  else (board, gameRoom.blockedCells, [])

/-- Steps 5-10 of the move pipeline, shared by the card and no-card paths:
the validity check against the post-card board and blocked list, the
placement, the terminal evaluation and the turn switch. `room1` already
carries any card-effect mutations; it is committed to the registry on every
path, mirroring the source's in-place mutation of the stored room object. -/
def placeAndResolve (db : Db) (rooms : List (String × GameRoom)) (roomId sid : String)
    (room1 : GameRoom) (position : Nat) (now : Nat) (acc : List Emit) :
    ServerState × List Emit :=
  -- `board[position] !== null`: an in-range lookup must yield the null cell;
  -- an out-of-range lookup reads `undefined` in JS, which also differs from
  -- null, so the whole check is `board[position]? != some none`.
  if room1.board[position]? != some none
      || room1.blockedCells.contains position then
    (⟨setRoom rooms roomId room1, db⟩, acc ++ [.toSender (.error "Invalid move")])
  else
    match room1.players.find? (fun p => p.id == sid) with
    | none => (⟨setRoom rooms roomId room1, db⟩, acc)
    | some currentPlayer =>
      let board2 := room1.board.set position (some currentPlayer.symbol)
      let room2 := { room1 with
                     board := board2
                     moveHistory := room1.moveHistory ++
                       [MoveRec.mk position currentPlayer.symbol sid now] }
      match checkWinner board2 room2.boardSize with
      | some winner =>
        let room3 := { room2 with status := .FINISHED, winner := some winner }
        let db1 := match room3.players.find? (fun p => p.symbol == winner) with
                   | some wp => updateUserStats db wp.id .win
                   | none => db
        let db2 := match room3.players.find? (fun p => p.symbol != winner) with
                   | some lp => updateUserStats db1 lp.id .loss
                   | none => db1
        (⟨setRoom rooms roomId room3, db2⟩,
         acc ++ [.toRoom roomId (.gameOver (some winner)),
                 .toRoom roomId (.gameStateUpdate room3)])
      | none =>
        if isBoardFull board2 then
          let room3 := { room2 with status := .FINISHED, winner := none }
          let db2 := room3.players.foldl (fun d p => updateUserStats d p.id .draw) db
          (⟨setRoom rooms roomId room3, db2⟩,
           acc ++ [.toRoom roomId (.gameOver none),
                   .toRoom roomId (.gameStateUpdate room3)])
        else
          let room3 := match room2.players.find? (fun p => p.id != sid) with
                       | some nextPlayer => { room2 with currentTurn := nextPlayer.id }
                       | none => room2
          (⟨setRoom rooms roomId room3, db⟩,
           acc ++ [.toRoom roomId (.gameStateUpdate room3)])

/-- The `makeMove` handler (socket.ts lines 442-586); `now` stands for the
`new Date()` timestamp. -/
def makeMove (st : ServerState) (sid roomId : String) (position : Nat)
    (cardType : Option String) (now : Nat) : ServerState × List Emit :=
  match lookupRoom st.rooms roomId with
  | none => (st, [.toSender (.error "Room not found")])
  | some gameRoom =>
    if gameRoom.status != .PLAYING then
      (st, [.toSender (.error "Game is not active")])
    else if gameRoom.currentTurn != sid then
      (st, [.toSender (.error "Not your turn")])
    else
      match cardType with
      | none =>
        placeAndResolve st.db st.rooms roomId sid gameRoom position now []
      | some ct =>
        let consumed := useUserCard st.db sid ct
        if consumed.2 = false then
          (st, [.toSender (.error "Card not available")])
        else
          let eff := cardEffect gameRoom gameRoom.board sid roomId ct position
          let room1 := { gameRoom with board := eff.1, blockedCells := eff.2.1 }
          placeAndResolve consumed.1 st.rooms roomId sid room1 position now eff.2.2

/-- The `getGameState` handler: a pure query. -/
def getGameStateH (st : ServerState) (roomId : String) : ServerState × List Emit :=
  match lookupRoom st.rooms roomId with
  | none => (st, [])
  | some gameRoom => (st, [.toSender (.gameStateUpdate gameRoom)])

/-- The disconnect handler: removes the departing player from the first room
containing it (the source loop breaks after one hit); an emptied room is
deleted, otherwise the room reverts to WAITING. -/
def disconnectH (st : ServerState) (sid : String) : ServerState × List Emit :=
  match st.rooms.find? (fun e => e.2.players.any (fun p => p.id == sid)) with
  | none => (st, [])
  | some entry =>
    let roomId := entry.1
    let gameRoom := entry.2
    let players1 := gameRoom.players.eraseP (fun p => p.id == sid)
    if players1.length = 0 then
      (⟨st.rooms.filter (fun e => e.1 != roomId), st.db⟩, [])
    else
      let room1 := { gameRoom with players := players1, status := .WAITING }
      (⟨setRoom st.rooms roomId room1, st.db⟩,
       [.toRoom roomId (.playerLeft sid), .toRoom roomId (.gameStateUpdate room1)])

/-! ## Reachable server states -/

/-- One client action processed by the server. -/
inductive Step : ServerState → ServerState → Prop
  | create (st : ServerState) (sid roomId playerName : String) (boardSize : Nat)
      (fresh : String) : Step st (createRoomH st sid roomId playerName boardSize fresh).1
  | join (st : ServerState) (sid roomId playerName : String) :
      Step st (joinRoomH st sid roomId playerName).1
  | move (st : ServerState) (sid roomId : String) (position : Nat)
      (cardType : Option String) (now : Nat) :
      Step st (makeMove st sid roomId position cardType now).1
  | query (st : ServerState) (roomId : String) :
      Step st (getGameStateH st roomId).1
  | disconnect (st : ServerState) (sid : String) :
      Step st (disconnectH st sid).1

/-- Server states reachable from a start with no live rooms. The database is
arbitrary at start: it is owned by the external progression store and
persists across server restarts. -/
inductive Reachable : ServerState → Prop
  | init (db : Db) : Reachable ⟨[], db⟩
  | step {st st2 : ServerState} : Reachable st → Step st st2 → Reachable st2

/-! ## The hard-difficulty AI (`getBestMove` / `minimax`, page.tsx lines
448-497). The AI plays O, the human X. The source recursion terminates
because every recursive call fills one empty cell; the model makes that
explicit by passing the number of empty cells as structural fuel. -/

/-- The indices the move loops iterate over: `i < board.length` with
`board[i] === null`. -/
def emptyIdx (board : Board) : List Nat :=
  (List.range board.length).filter (fun i => board.getD i none == none)

/-- Number of empty cells; used as recursion fuel for `minimaxF`. -/
def countEmpty : Board → Nat
  | [] => 0
  | none :: rest => countEmpty rest + 1
  | some _ :: rest => countEmpty rest

/-- Stand-in for the JS `-Infinity` initial accumulator: strictly below every
reachable minimax score (see `minimaxF_bound`). -/
def negInf : Int := -1000000

/-- Stand-in for the JS `Infinity` initial accumulator. -/
def posInf : Int := 1000000

/-- `minimax` with explicit fuel, the source's sequential terminal checks
first. The fuel-0 case is unreachable from `minimax` below: it instantiates
the fuel with `countEmpty board + 1`, and the non-terminal case only
recurses on boards with one more occupied cell, so every recursive call
again has fuel strictly larger than the number of empty cells. -/
def minimaxF : Nat → Board → Nat → Nat → Bool → Int
  | 0, _, _, _, _ => 0
  | fuel' + 1, board, size, depth, isMaximizing =>
    if checkWinner board size == some Symbol.O then 10 - (depth : Int)
    else if checkWinner board size == some Symbol.X then (depth : Int) - 10
    else if isBoardFull board then 0
    else if isMaximizing then
      (emptyIdx board).foldl
        (fun bestScore i =>
          max bestScore (minimaxF fuel' (board.set i (some .O)) size (depth + 1) false))
        negInf
    else
      (emptyIdx board).foldl
        (fun bestScore i =>
          min bestScore (minimaxF fuel' (board.set i (some .X)) size (depth + 1) true))
        posInf

/-- The `minimax` function of the source. -/
def minimax (board : Board) (size depth : Nat) (isMaximizing : Bool) : Int :=
  minimaxF (countEmpty board + 1) board size depth isMaximizing

/-- `getBestMove`: scans cells in index order, tries O on each empty cell,
keeps the first strictly-better score; returns -1 on a board with no empty
cell. -/
def getBestMove (board : Board) (size : Nat) : Int :=
  ((List.range board.length).foldl
    (fun acc i =>
      if board.getD i none == none then
        let score := minimax (board.set i (some .O)) size 0 false
        if acc.1 < score then (score, (i : Int)) else acc
      else acc)
    (negInf, -1)).2

/-! ## Concrete runs used by counterexamples and witnesses.
The starting database holds a few cards for player `a`, which the external
progression store may legitimately have granted before this server run. -/

/-- Start database: player `a` owns one Block, two Swap Cell and one Double
Move card. -/
def db0 : Db :=
  ⟨fun _ => none,
   [⟨"a", "BLOCK", 1, 0⟩, ⟨"a", "SWAP_CELL", 2, 0⟩, ⟨"a", "DOUBLE_MOVE", 1, 0⟩]⟩

/-- Fresh server state. -/
def s0 : ServerState := ⟨[], db0⟩

/-- After client `a` creates 3×3 room `r`. -/
def s1 : ServerState := (createRoomH s0 "a" "r" "A" 3 "u1").1

/-- After client `b` joins room `r` (game starts, X = a to move). -/
def s2 : ServerState := (joinRoomH s1 "b" "r" "B").1

/-- a plays cell 0. -/
def m1 : ServerState := (makeMove s2 "a" "r" 0 none 0).1

/-- b plays cell 3. -/
def m2 : ServerState := (makeMove m1 "b" "r" 3 none 0).1

/-- a plays cell 1. -/
def m3 : ServerState := (makeMove m2 "a" "r" 1 none 0).1

/-- b plays cell 4. -/
def m4 : ServerState := (makeMove m3 "b" "r" 4 none 0).1

/-- a plays cell 2 and wins on the top row; the room is FINISHED with
winner X. -/
def m5 : ServerState := (makeMove m4 "a" "r" 2 none 0).1

/-- b disconnects from the finished room: one player remains, status reverts
to WAITING, the stale winner X is not cleared. -/
def d6 : ServerState := (disconnectH m5 "b").1

/-- c joins the abandoned room: status becomes PLAYING again while the stale
winner X is still set. -/
def j7 : ServerState := (joinRoomH d6 "c" "r" "C").1

theorem reachable_s2 : Reachable s2 :=
  Reachable.step
    (Reachable.step (Reachable.init db0) (Step.create s0 "a" "r" "A" 3 "u1"))
    (Step.join s1 "b" "r" "B")

theorem reachable_j7 : Reachable j7 :=
  Reachable.step
    (Reachable.step
      (Reachable.step
        (Reachable.step
          (Reachable.step
            (Reachable.step
              (Reachable.step reachable_s2 (Step.move s2 "a" "r" 0 none 0))
              (Step.move m1 "b" "r" 3 none 0))
            (Step.move m2 "a" "r" 1 none 0))
          (Step.move m3 "b" "r" 4 none 0))
        (Step.move m4 "a" "r" 2 none 0))
      (Step.disconnect m5 "b"))
    (Step.join d6 "c" "r" "C")

/-! ## Registry lemmas -/

theorem find?_setRoom_hit (roomId : String) (room : GameRoom) :
    ∀ (rooms : List (String × GameRoom)), rooms.any (fun e => e.1 == roomId) = true →
    (rooms.map (fun e => if e.1 == roomId then (roomId, room) else e)).find?
        (fun e => e.1 == roomId) = some (roomId, room) := by
  intro rooms hany
  induction rooms with
  | nil => simp at hany
  | cons e rest ih =>
    rw [List.map_cons]
    by_cases he : (e.1 == roomId) = true
    · rw [if_pos he, List.find?_cons_of_pos]
      simp
    · rw [if_neg (by simp [he])]
      have he2 : (e.1 == roomId) = false := by simpa using he
      rw [List.find?_cons]
      simp only [he2]
      apply ih
      simp only [List.any_cons, he2, Bool.false_or] at hany
      exact hany

theorem find?_none_append {α} {p : α → Bool} {l1 l2 : List α}
    (h : ∀ x ∈ l1, p x = false) : (l1 ++ l2).find? p = l2.find? p := by
  induction l1 with
  | nil => simp
  | cons a rest ih =>
    rw [List.cons_append, List.find?_cons]
    simp only [h a (List.mem_cons_self a rest)]
    exact ih (fun x hx => h x (List.mem_cons_of_mem a hx))

theorem lookupRoom_setRoom_self (rooms : List (String × GameRoom)) (roomId : String)
    (room : GameRoom) : lookupRoom (setRoom rooms roomId room) roomId = some room := by
  unfold setRoom
  by_cases hany : rooms.any (fun e => e.1 == roomId)
  · rw [if_pos hany]
    unfold lookupRoom
    rw [find?_setRoom_hit roomId room rooms hany]
    rfl
  · rw [if_neg hany]
    unfold lookupRoom
    rw [find?_none_append]
    · simp
    · intro x hx
      by_contra hpx
      exact hany (List.any_eq_true.mpr ⟨x, hx, by simpa using hpx⟩)

theorem mem_setRoom {rooms : List (String × GameRoom)} {roomId : String}
    {room : GameRoom} {e : String × GameRoom} (h : e ∈ setRoom rooms roomId room) :
    e ∈ rooms ∨ e = (roomId, room) := by
  unfold setRoom at h
  by_cases hany : rooms.any (fun x => x.1 == roomId)
  · rw [if_pos hany] at h
    obtain ⟨x, hx, hfx⟩ := List.mem_map.mp h
    by_cases hxk : (x.1 == roomId) = true
    · right; rw [← hfx]; simp [hxk]
    · left
      rw [← hfx, if_neg (by simp [hxk])]
      exact hx
  · rw [if_neg hany] at h
    rcases List.mem_append.mp h with h1 | h1
    · exact Or.inl h1
    · right; simpa using h1

theorem lookupRoom_mem {rooms : List (String × GameRoom)} {roomId : String}
    {room : GameRoom} (h : lookupRoom rooms roomId = some room) :
    (roomId, room) ∈ rooms := by
  unfold lookupRoom at h
  cases hf : rooms.find? (fun e => e.1 == roomId) with
  | none => rw [hf] at h; cases h
  | some e =>
    rw [hf] at h
    have h2 : e.2 = room := by simpa using h
    have hmem := List.mem_of_find?_eq_some hf
    have hpred := List.find?_some hf
    have h1 : e.1 = roomId := by simpa using hpred
    have he : e = (roomId, room) := by
      cases e
      simp only at h1 h2
      rw [h1, h2]
    rw [← he]
    exact hmem

/-! ## Branch equations for `makeMove` -/

theorem makeMove_no_room {st : ServerState} {sid roomId : String} {position : Nat}
    {cardType : Option String} {now : Nat}
    (h : lookupRoom st.rooms roomId = none) :
    makeMove st sid roomId position cardType now
      = (st, [.toSender (.error "Room not found")]) := by
  unfold makeMove; rw [h]

theorem makeMove_not_playing {st : ServerState} {sid roomId : String} {position : Nat}
    {cardType : Option String} {now : Nat} {room : GameRoom}
    (h : lookupRoom st.rooms roomId = some room) (hs : room.status ≠ .PLAYING) :
    makeMove st sid roomId position cardType now
      = (st, [.toSender (.error "Game is not active")]) := by
  unfold makeMove
  rw [h]
  simp only [bne_iff_ne, ne_eq, hs, not_false_eq_true, if_true]

theorem makeMove_not_turn {st : ServerState} {sid roomId : String} {position : Nat}
    {cardType : Option String} {now : Nat} {room : GameRoom}
    (h : lookupRoom st.rooms roomId = some room) (hs : room.status = .PLAYING)
    (ht : room.currentTurn ≠ sid) :
    makeMove st sid roomId position cardType now
      = (st, [.toSender (.error "Not your turn")]) := by
  unfold makeMove
  rw [h]
  simp only [hs, bne_self_eq_false, Bool.false_eq_true, if_false, bne_iff_ne, ne_eq,
    ht, not_false_eq_true, if_true]

theorem makeMove_card_unavailable {st : ServerState} {sid roomId : String}
    {position : Nat} {c : String} {now : Nat} {room : GameRoom}
    (h : lookupRoom st.rooms roomId = some room) (hs : room.status = .PLAYING)
    (ht : room.currentTurn = sid) (hc : (useUserCard st.db sid c).2 = false) :
    makeMove st sid roomId position (some c) now
      = (st, [.toSender (.error "Card not available")]) := by
  unfold makeMove
  rw [h]
  simp only [hs, bne_self_eq_false, Bool.false_eq_true, if_false, ht, hc, if_true]

theorem makeMove_card_ok {st : ServerState} {sid roomId : String}
    {position : Nat} {c : String} {now : Nat} {room : GameRoom}
    (h : lookupRoom st.rooms roomId = some room) (hs : room.status = .PLAYING)
    (ht : room.currentTurn = sid) (hc : (useUserCard st.db sid c).2 = true) :
    makeMove st sid roomId position (some c) now
      = placeAndResolve (useUserCard st.db sid c).1 st.rooms roomId sid
          { room with
            board := (cardEffect room room.board sid roomId c position).1
            blockedCells := (cardEffect room room.board sid roomId c position).2.1 }
          position now (cardEffect room room.board sid roomId c position).2.2 := by
  unfold makeMove
  rw [h]
  simp only [hs, bne_self_eq_false, Bool.false_eq_true, if_false, ht, hc]
  rw [if_neg (by decide)]

theorem makeMove_plain {st : ServerState} {sid roomId : String}
    {position : Nat} {now : Nat} {room : GameRoom}
    (h : lookupRoom st.rooms roomId = some room) (hs : room.status = .PLAYING)
    (ht : room.currentTurn = sid) :
    makeMove st sid roomId position none now
      = placeAndResolve st.db st.rooms roomId sid room position now [] := by
  unfold makeMove
  rw [h]
  simp only [hs, bne_self_eq_false, Bool.false_eq_true, if_false, ht]

/-! ## Branch equations and frame lemmas for `placeAndResolve` -/

theorem placeAndResolve_invalid {db : Db} {rooms : List (String × GameRoom)}
    {roomId sid : String} {room1 : GameRoom} {position now : Nat} {acc : List Emit}
    (hinv : (room1.board[position]? != some none
      || room1.blockedCells.contains position) = true) :
    placeAndResolve db rooms roomId sid room1 position now acc
      = (⟨setRoom rooms roomId room1, db⟩, acc ++ [.toSender (.error "Invalid move")]) := by
  unfold placeAndResolve
  rw [if_pos hinv]

theorem placeAndResolve_valid_board {db : Db} {rooms : List (String × GameRoom)}
    {roomId sid : String} {room1 : GameRoom} {position now : Nat} {acc : List Emit}
    {currentPlayer : Player}
    (hval : (room1.board[position]? != some none
      || room1.blockedCells.contains position) = false)
    (hcp : room1.players.find? (fun p => p.id == sid) = some currentPlayer) :
    ∃ R, (placeAndResolve db rooms roomId sid room1 position now acc).1.rooms
        = setRoom rooms roomId R ∧
      R.board = room1.board.set position (some currentPlayer.symbol) ∧
      R.blockedCells = room1.blockedCells ∧
      R.players = room1.players ∧
      R.moveHistory = room1.moveHistory
        ++ [MoveRec.mk position currentPlayer.symbol sid now] := by
  unfold placeAndResolve
  rw [if_neg (by rw [hval]; exact Bool.false_ne_true), hcp]
  dsimp only
  cases hw : checkWinner (room1.board.set position (some currentPlayer.symbol))
      room1.boardSize with
  | some w => exact ⟨_, rfl, rfl, rfl, rfl, rfl⟩
  | none =>
    by_cases hfull : isBoardFull (room1.board.set position (some currentPlayer.symbol)) = true
    · rw [if_pos hfull]
      exact ⟨_, rfl, rfl, rfl, rfl, rfl⟩
    · rw [if_neg hfull]
      cases hnp : room1.players.find? (fun p => p.id != sid) with
      | some np => exact ⟨_, rfl, rfl, rfl, rfl, rfl⟩
      | none => exact ⟨_, rfl, rfl, rfl, rfl, rfl⟩

theorem placeAndResolve_nonterminal {db : Db} {rooms : List (String × GameRoom)}
    {roomId sid : String} {room1 : GameRoom} {position now : Nat} {acc : List Emit}
    {currentPlayer nextPlayer : Player}
    (hval : (room1.board[position]? != some none
      || room1.blockedCells.contains position) = false)
    (hcp : room1.players.find? (fun p => p.id == sid) = some currentPlayer)
    (hw : checkWinner (room1.board.set position (some currentPlayer.symbol))
      room1.boardSize = none)
    (hfull : isBoardFull (room1.board.set position (some currentPlayer.symbol)) = false)
    (hnp : room1.players.find? (fun p => p.id != sid) = some nextPlayer) :
    placeAndResolve db rooms roomId sid room1 position now acc
      = (⟨setRoom rooms roomId
            { room1 with
              board := room1.board.set position (some currentPlayer.symbol)
              moveHistory := room1.moveHistory
                ++ [MoveRec.mk position currentPlayer.symbol sid now]
              currentTurn := nextPlayer.id }, db⟩,
         acc ++ [.toRoom roomId (.gameStateUpdate
            { room1 with
              board := room1.board.set position (some currentPlayer.symbol)
              moveHistory := room1.moveHistory
                ++ [MoveRec.mk position currentPlayer.symbol sid now]
              currentTurn := nextPlayer.id })]) := by
  unfold placeAndResolve
  rw [if_neg (by rw [hval]; exact Bool.false_ne_true), hcp]
  dsimp only
  simp only [hw, hfull, Bool.false_eq_true, if_false, hnp]

theorem placeAndResolve_acc (db : Db) (rooms : List (String × GameRoom))
    (roomId sid : String) (room1 : GameRoom) (position now : Nat) (acc : List Emit) :
    placeAndResolve db rooms roomId sid room1 position now acc
      = ((placeAndResolve db rooms roomId sid room1 position now []).1,
         acc ++ (placeAndResolve db rooms roomId sid room1 position now []).2) := by
  unfold placeAndResolve
  by_cases hinv : (room1.board[position]? != some none
      || room1.blockedCells.contains position) = true
  · simp at hinv
    simp [hinv]
  · have hinv2 : (room1.board[position]? != some none
        || room1.blockedCells.contains position) = false := by
      simpa using hinv
    simp only [hinv2, Bool.false_eq_true, if_false]
    cases hcp : room1.players.find? (fun p => p.id == sid) with
    | none => simp
    | some currentPlayer =>
      dsimp only
      cases hw : checkWinner (room1.board.set position (some currentPlayer.symbol))
          room1.boardSize with
      | some w => simp
      | none =>
        by_cases hfull : isBoardFull
            (room1.board.set position (some currentPlayer.symbol)) = true
        · simp [hfull]
        · have hfull2 : isBoardFull
              (room1.board.set position (some currentPlayer.symbol)) = false := by
            simpa using hfull
          simp only [hfull2, Bool.false_eq_true, if_false]
          cases hnp : room1.players.find? (fun p => p.id != sid) <;> simp

/-! ## Card-effect lemmas -/

/-- The room as mutated by the card-effect stage, before the validity check. -/
def afterCard (room : GameRoom) (sid roomId c : String) (position : Nat) : GameRoom :=
  { room with
    board := (cardEffect room room.board sid roomId c position).1
    blockedCells := (cardEffect room room.board sid roomId c position).2.1 }

theorem cardEffect_double (gameRoom : GameRoom) (board : Board) (sid roomId : String)
    (position : Nat) :
    cardEffect gameRoom board sid roomId "DOUBLE_MOVE" position
      = (board, gameRoom.blockedCells,
         [.toRoom roomId (.cardUsed "Double Move" sid)]) := rfl

theorem cardEffect_block (gameRoom : GameRoom) (board : Board) (sid roomId : String)
    (position : Nat) :
    cardEffect gameRoom board sid roomId "BLOCK" position
      = (board,
         (if gameRoom.blockedCells.contains position then gameRoom.blockedCells
          else gameRoom.blockedCells ++ [position]),
         [.toRoom roomId (.cardUsed "Block" sid)]) := rfl

theorem cardEffect_mem_cardUsed {gameRoom : GameRoom} {board : Board}
    {sid roomId c : String} {position : Nat} {e : Emit}
    (h : e ∈ (cardEffect gameRoom board sid roomId c position).2.2) :
    ∃ n, e = .toRoom roomId (.cardUsed n sid) := by
  unfold cardEffect at h
  by_cases h1 : (c == "BLOCK") = true
  · rw [if_pos h1] at h
    exact ⟨_, by simpa using h⟩
  · rw [if_neg h1] at h
    by_cases h2 : (c == "DOUBLE_MOVE") = true
    · rw [if_pos h2] at h
      exact ⟨_, by simpa using h⟩
    · rw [if_neg h2] at h
      by_cases h3 : (c == "SWAP_CELL") = true
      · rw [if_pos h3] at h
        rcases hopp : (gameRoom.players.find? (fun p => p.id != sid)).map
            (fun p => p.symbol) with _ | oppSym
        · rw [hopp] at h; cases h
        · rw [hopp] at h
          simp only at h
          by_cases htgt : (board.getD position none == some oppSym) = true
          · rw [if_pos htgt] at h
            rcases hme : (gameRoom.players.find? (fun p => p.id == sid)).map
                (fun p => p.symbol) with _ | mySym
            · rw [hme] at h; cases h
            · rw [hme] at h
              simp only at h
              rcases hfilter : (List.range board.length).filter
                  (fun i => board.getD i none == some mySym) with _ | ⟨swapPosition, rest⟩
              · rw [hfilter] at h; cases h
              · rw [hfilter] at h
                exact ⟨_, by simpa using h⟩
          · rw [if_neg htgt] at h
            cases h
      · rw [if_neg h3] at h
        cases h

theorem placeAndResolve_error_mem {db : Db} {rooms : List (String × GameRoom)}
    {roomId sid : String} {room1 : GameRoom} {position now : Nat} {acc : List Emit}
    {rid m : String}
    (h : Emit.toRoom rid (Msg.error m)
      ∈ (placeAndResolve db rooms roomId sid room1 position now acc).2) :
    Emit.toRoom rid (Msg.error m) ∈ acc := by
  rw [placeAndResolve_acc] at h
  simp only [List.mem_append] at h
  rcases h with h | h
  · exact h
  · exfalso
    revert h
    unfold placeAndResolve
    by_cases hinv : (room1.board[position]? != some none
        || room1.blockedCells.contains position) = true
    · simp at hinv
      simp [hinv]
    · have hinv2 : (room1.board[position]? != some none
          || room1.blockedCells.contains position) = false := by
        simpa using hinv
      simp only [hinv2, Bool.false_eq_true, if_false]
      cases hcp : room1.players.find? (fun p => p.id == sid) with
      | none => simp
      | some currentPlayer =>
        dsimp only
        cases hw : checkWinner (room1.board.set position (some currentPlayer.symbol))
            room1.boardSize with
        | some w => simp
        | none =>
          by_cases hfull : isBoardFull
              (room1.board.set position (some currentPlayer.symbol)) = true
          · simp [hfull]
          · have hfull2 : isBoardFull
                (room1.board.set position (some currentPlayer.symbol)) = false := by
              simpa using hfull
            simp only [hfull2, Bool.false_eq_true, if_false]
            cases hnp : room1.players.find? (fun p => p.id != sid) <;> simp

theorem makeMove_no_error_broadcast (st : ServerState) (sid roomId : String)
    (position : Nat) (cardType : Option String) (now : Nat) (rid m : String) :
    Emit.toRoom rid (Msg.error m) ∉ (makeMove st sid roomId position cardType now).2 := by
  cases hlook : lookupRoom st.rooms roomId with
  | none => rw [makeMove_no_room hlook]; simp
  | some room =>
    by_cases hs : room.status = .PLAYING
    · by_cases ht : room.currentTurn = sid
      · cases cardType with
        | none =>
          rw [makeMove_plain hlook hs ht]
          intro hmem
          have h2 := placeAndResolve_error_mem hmem
          cases h2
        | some c =>
          by_cases hc : (useUserCard st.db sid c).2 = true
          · rw [makeMove_card_ok hlook hs ht hc]
            intro hmem
            have h2 := placeAndResolve_error_mem hmem
            obtain ⟨n, hn⟩ := cardEffect_mem_cardUsed h2
            cases hn
          · rw [makeMove_card_unavailable hlook hs ht (by simpa using hc)]
            simp
      · rw [makeMove_not_turn hlook hs ht]; simp
    · rw [makeMove_not_playing hlook hs]; simp

/-! ## Card-consumption lemmas -/

theorem find?_updateFirst {α} (p : α → Bool) (f : α → α) (hf : ∀ a, p (f a) = p a) :
    ∀ l : List α, (updateFirst p f l).find? p = (l.find? p).map f := by
  intro l
  induction l with
  | nil => rfl
  | cons a rest ih =>
    unfold updateFirst
    by_cases ha : p a = true
    · rw [if_pos ha, List.find?_cons, List.find?_cons]
      simp only [hf a, ha, Option.map_some']
    · have ha2 : p a = false := by simpa using ha
      rw [if_neg (by simp [ha2]), List.find?_cons, List.find?_cons]
      simp only [ha2]
      exact ih

theorem useUserCard_fail {db : Db} {uid c : String} :
    (useUserCard db uid c).2 = false → (useUserCard db uid c).1 = db := by
  unfold useUserCard
  rcases cardByType c with _ | cd
  · intro _; rfl
  · dsimp only
    rcases db.userCards.find? (isHolding uid c) with _ | uc
    · intro _; rfl
    · dsimp only
      by_cases hq : uc.quantity ≤ 0
      · rw [if_pos hq]
        intro _; rfl
      · rw [if_neg hq]
        intro h
        simp at h

theorem isHolding_update_inv (uid c : String) (g : UserCard → UserCard)
    (hg : ∀ r, (g r).userId = r.userId ∧ (g r).cardType = r.cardType) :
    ∀ a, isHolding uid c (g a) = isHolding uid c a := by
  intro a
  unfold isHolding
  rw [(hg a).1, (hg a).2]

theorem useUserCard_consumes {db : Db} {uid c : String} :
    (useUserCard db uid c).2 = true →
    1 ≤ cardQty db uid c ∧
    cardQty (useUserCard db uid c).1 uid c = cardQty db uid c - 1 ∧
    cardUsedCount (useUserCard db uid c).1 uid c = cardUsedCount db uid c + 1 := by
  unfold useUserCard cardQty cardUsedCount
  rcases cardByType c with _ | cd
  · intro h; cases h
  · dsimp only
    rcases hfind : db.userCards.find? (isHolding uid c) with _ | uc
    · intro h; cases h
    · dsimp only
      by_cases hq : uc.quantity ≤ 0
      · rw [if_pos hq]
        intro h; cases h
      · rw [if_neg hq]
        intro _
        have hmap := find?_updateFirst (isHolding uid c)
          (fun r => { r with quantity := r.quantity - 1, used := r.used + 1 })
          (isHolding_update_inv uid c _ (fun r => ⟨rfl, rfl⟩)) db.userCards
        dsimp only
        rw [hmap, hfind, Option.map_some']
        refine ⟨by omega, rfl, rfl⟩

/-! ## C2 / C3: failure semantics of the move resolver -/

/-- Fallback room used only to name concrete lookup results. -/
def defaultRoom : GameRoom := createGameRoom "" "" 0

/-- The room of `s2` (game just started). -/
def s2room : GameRoom := (lookupRoom s2.rooms "r").getD defaultRoom

/-- The room of `m1` (after the first move; b to play). -/
def m1room : GameRoom := (lookupRoom m1.rooms "r").getD defaultRoom

/-- The room of `m5` (finished game). -/
def m5room : GameRoom := (lookupRoom m5.rooms "r").getD defaultRoom

/-- **C2 (amended).** Every `makeMove` failure is reported to the acting
participant only — an error payload is never broadcast to the room. Failures
at the status, turn or card-availability checks leave the server state
entirely unchanged, and a card-less invalid-move failure leaves the room and
database unchanged. But when a card was consumed and the placement then
fails the invalid-move check, the card consumption and the card effect's
board and blocked-cell mutations persist; only the board and blocked-cell
fields of the room can differ — turn, status, winner, move log and
participants are unchanged by the card stage. -/
theorem makeMove_failure_frame (st : ServerState) (sid roomId : String)
    (position : Nat) (cardType : Option String) (now : Nat) :
    (∀ rid m, Emit.toRoom rid (Msg.error m)
      ∉ (makeMove st sid roomId position cardType now).2) ∧
    (∀ room, lookupRoom st.rooms roomId = some room → room.status ≠ .PLAYING →
      makeMove st sid roomId position cardType now
        = (st, [.toSender (.error "Game is not active")])) ∧
    (∀ room, lookupRoom st.rooms roomId = some room → room.status = .PLAYING →
      room.currentTurn ≠ sid →
      makeMove st sid roomId position cardType now
        = (st, [.toSender (.error "Not your turn")])) ∧
    (∀ room c, lookupRoom st.rooms roomId = some room → room.status = .PLAYING →
      room.currentTurn = sid → cardType = some c →
      (useUserCard st.db sid c).2 = false →
      makeMove st sid roomId position cardType now
        = (st, [.toSender (.error "Card not available")])) ∧
    (∀ room, lookupRoom st.rooms roomId = some room → room.status = .PLAYING →
      room.currentTurn = sid → cardType = none →
      (room.board[position]? != some none
        || room.blockedCells.contains position) = true →
      makeMove st sid roomId position cardType now
        = (⟨setRoom st.rooms roomId room, st.db⟩,
           [.toSender (.error "Invalid move")])) ∧
    (∀ room c, lookupRoom st.rooms roomId = some room → room.status = .PLAYING →
      room.currentTurn = sid → cardType = some c →
      (useUserCard st.db sid c).2 = true →
      ((afterCard room sid roomId c position).board[position]? != some none
        || (afterCard room sid roomId c position).blockedCells.contains position)
          = true →
      makeMove st sid roomId position cardType now
        = (⟨setRoom st.rooms roomId (afterCard room sid roomId c position),
            (useUserCard st.db sid c).1⟩,
           (cardEffect room room.board sid roomId c position).2.2
             ++ [.toSender (.error "Invalid move")])) ∧
    (∀ room c position2,
      (afterCard room sid roomId c position2).currentTurn = room.currentTurn ∧
      (afterCard room sid roomId c position2).status = room.status ∧
      (afterCard room sid roomId c position2).winner = room.winner ∧
      (afterCard room sid roomId c position2).players = room.players ∧
      (afterCard room sid roomId c position2).moveHistory = room.moveHistory) := by
  refine ⟨makeMove_no_error_broadcast st sid roomId position cardType now,
    ?_, ?_, ?_, ?_, ?_, ?_⟩
  · intro room hlook hs
    exact makeMove_not_playing hlook hs
  · intro room hlook hs ht
    exact makeMove_not_turn hlook hs ht
  · intro room c hlook hs ht hct hc
    subst hct
    exact makeMove_card_unavailable hlook hs ht hc
  · intro room hlook hs ht hct hinv
    subst hct
    rw [makeMove_plain hlook hs ht]
    exact placeAndResolve_invalid hinv
  · intro room c hlook hs ht hct hc hinv
    subst hct
    rw [makeMove_card_ok hlook hs ht hc]
    exact placeAndResolve_invalid hinv
  · intro room c position2
    exact ⟨rfl, rfl, rfl, rfl, rfl⟩

/-- Concrete instantiation of the C2 amended theorem: in the finished room of
`m5`, a further move fails with GameNotActive and changes nothing. -/
theorem makeMove_failure_frame_witness :
    lookupRoom m5.rooms "r" = some m5room ∧
    m5room.status ≠ Status.PLAYING ∧
    makeMove m5 "a" "r" 5 none 0 = (m5, [.toSender (.error "Game is not active")]) :=
  ⟨by decide, by decide,
   (makeMove_failure_frame m5 "a" "r" 5 none 0).2.1 m5room (by decide) (by decide)⟩

/-- **C2 counterexample.** In the reachable state `s2`, player a plays the
Block card on the empty cell 4: the move fails (reported as Invalid move to
the sender), yet the room's blocked-cell set has changed from `[]` to `[4]`
and the card has been consumed — the claim that a failed `makeMove` leaves
the room state unchanged except holding counts is false on the code. -/
theorem makeMove_failed_block_mutates_cex :
    Reachable s2 ∧
    (lookupRoom s2.rooms "r").map (fun r => r.blockedCells) = some [] ∧
    Emit.toSender (Msg.error "Invalid move")
      ∈ (makeMove s2 "a" "r" 4 (some "BLOCK") 0).2 ∧
    (lookupRoom (makeMove s2 "a" "r" 4 (some "BLOCK") 0).1.rooms "r").map
      (fun r => r.blockedCells) = some [4] :=
  ⟨reachable_s2, by decide, by decide, by decide⟩

/-- **C3.** `makeMove` checks its preconditions in the fixed order — status
is Playing (GameNotActive), acting participant holds the turn (NotYourTurn),
then, if a card kind is given, the participant holds at least one unused
instance (CardUnavailable) — with the first failure winning; on success the
card is consumed (available count −1, used count +1) before its effect is
applied, and the consumption is not refunded even if the subsequent
placement fails as an invalid move. -/
theorem makeMove_precondition_order (st : ServerState) (sid roomId : String)
    (position now : Nat) (room : GameRoom)
    (hlook : lookupRoom st.rooms roomId = some room) :
    (∀ cardType, room.status ≠ .PLAYING →
      makeMove st sid roomId position cardType now
        = (st, [.toSender (.error "Game is not active")])) ∧
    (∀ cardType, room.status = .PLAYING → room.currentTurn ≠ sid →
      makeMove st sid roomId position cardType now
        = (st, [.toSender (.error "Not your turn")])) ∧
    (∀ c, room.status = .PLAYING → room.currentTurn = sid →
      (useUserCard st.db sid c).2 = false →
      makeMove st sid roomId position (some c) now
        = (st, [.toSender (.error "Card not available")])) ∧
    (∀ c, (useUserCard st.db sid c).2 = true →
      1 ≤ cardQty st.db sid c ∧
      cardQty (useUserCard st.db sid c).1 sid c = cardQty st.db sid c - 1 ∧
      cardUsedCount (useUserCard st.db sid c).1 sid c
        = cardUsedCount st.db sid c + 1) ∧
    (∀ c, room.status = .PLAYING → room.currentTurn = sid →
      (useUserCard st.db sid c).2 = true →
      ((afterCard room sid roomId c position).board[position]? != some none
        || (afterCard room sid roomId c position).blockedCells.contains position)
          = true →
      (makeMove st sid roomId position (some c) now).1.db
        = (useUserCard st.db sid c).1) := by
  refine ⟨?_, ?_, ?_, ?_, ?_⟩
  · intro cardType hs
    exact makeMove_not_playing hlook hs
  · intro cardType hs ht
    exact makeMove_not_turn hlook hs ht
  · intro c hs ht hc
    exact makeMove_card_unavailable hlook hs ht hc
  · intro c hc
    exact useUserCard_consumes hc
  · intro c hs ht hc hinv
    rw [makeMove_card_ok hlook hs ht hc]
    exact congrArg (fun p => p.1.db) (placeAndResolve_invalid hinv)

/-- Concrete instantiation of the C3 theorem: at `m1` it is b's turn, so a
move by a fails with NotYourTurn; at `s2`, consuming a's Block card moves a
holding from one available and none used to none available and one used. -/
theorem makeMove_precondition_order_witness :
    (lookupRoom m1.rooms "r" = some m1room ∧ m1room.currentTurn ≠ "a" ∧
      makeMove m1 "a" "r" 1 none 0 = (m1, [.toSender (.error "Not your turn")])) ∧
    ((useUserCard s2.db "a" "BLOCK").2 = true ∧
      1 ≤ cardQty s2.db "a" "BLOCK" ∧
      cardQty (useUserCard s2.db "a" "BLOCK").1 "a" "BLOCK"
        = cardQty s2.db "a" "BLOCK" - 1 ∧
      cardUsedCount (useUserCard s2.db "a" "BLOCK").1 "a" "BLOCK"
        = cardUsedCount s2.db "a" "BLOCK" + 1) :=
  ⟨⟨by decide, by decide,
    (makeMove_precondition_order m1 "a" "r" 1 0 m1room (by decide)).2.1 none
      (by decide) (by decide)⟩,
   ⟨by decide,
    (makeMove_precondition_order s2 "a" "r" 4 0 s2room (by decide)).2.2.2.1 "BLOCK"
      (by decide)⟩⟩

/-! ## C4 / C6: reachable-state invariants -/

/-- The per-room invariant that actually holds on the code: at least one
participant, exactly two while PLAYING, and a board of exactly N² cells. -/
def RoomInv (room : GameRoom) : Prop :=
  1 ≤ room.players.length ∧
  (room.status = .PLAYING → room.players.length = 2) ∧
  room.board.length = room.boardSize * room.boardSize

/-- All live rooms satisfy `RoomInv`. -/
def Inv (st : ServerState) : Prop := ∀ e ∈ st.rooms, RoomInv e.2

theorem cardEffect_board_length (gameRoom : GameRoom) (board : Board)
    (sid roomId c : String) (position : Nat) :
    (cardEffect gameRoom board sid roomId c position).1.length = board.length := by
  unfold cardEffect
  by_cases h1 : (c == "BLOCK") = true
  · rw [if_pos h1]
  · rw [if_neg h1]
    by_cases h2 : (c == "DOUBLE_MOVE") = true
    · rw [if_pos h2]
    · rw [if_neg h2]
      by_cases h3 : (c == "SWAP_CELL") = true
      · rw [if_pos h3]
        cases hopp : (gameRoom.players.find? (fun p => p.id != sid)).map
            (fun p => p.symbol) with
        | none => rfl
        | some oppSym =>
          dsimp only
          by_cases htgt : (board.getD position none == some oppSym) = true
          · rw [if_pos htgt]
            cases hme : (gameRoom.players.find? (fun p => p.id == sid)).map
                (fun p => p.symbol) with
            | none => rfl
            | some mySym =>
              dsimp only
              cases hfil : (List.range board.length).filter
                  (fun i => board.getD i none == some mySym) with
              | nil => rfl
              | cons sp rest => simp [List.length_set]
          · rw [if_neg htgt]
      · rw [if_neg h3]

theorem placeAndResolve_frame (db : Db) (rooms : List (String × GameRoom))
    (roomId sid : String) (room1 : GameRoom) (position now : Nat) (acc : List Emit) :
    ∃ R, (placeAndResolve db rooms roomId sid room1 position now acc).1.rooms
        = setRoom rooms roomId R ∧
      R.players = room1.players ∧
      R.boardSize = room1.boardSize ∧
      R.board.length = room1.board.length ∧
      (R.status = .PLAYING → R.status = room1.status) := by
  unfold placeAndResolve
  by_cases hinv : (room1.board[position]? != some none
      || room1.blockedCells.contains position) = true
  · rw [if_pos hinv]
    exact ⟨room1, rfl, rfl, rfl, rfl, fun _ => rfl⟩
  · rw [if_neg hinv]
    cases hcp : room1.players.find? (fun p => p.id == sid) with
    | none => exact ⟨room1, rfl, rfl, rfl, rfl, fun _ => rfl⟩
    | some currentPlayer =>
      dsimp only
      cases hw : checkWinner (room1.board.set position (some currentPlayer.symbol))
          room1.boardSize with
      | some w =>
        refine ⟨_, rfl, rfl, rfl, by simp [List.length_set], ?_⟩
        intro h
        simp at h
      | none =>
        by_cases hfull : isBoardFull
            (room1.board.set position (some currentPlayer.symbol)) = true
        · rw [if_pos hfull]
          refine ⟨_, rfl, rfl, rfl, by simp [List.length_set], ?_⟩
          intro h
          simp at h
        · rw [if_neg hfull]
          cases hnp : room1.players.find? (fun p => p.id != sid) with
          | some np =>
            exact ⟨_, rfl, rfl, rfl, by simp [List.length_set], fun _ => rfl⟩
          | none =>
            exact ⟨_, rfl, rfl, rfl, by simp [List.length_set], fun _ => rfl⟩

theorem inv_placeAndResolve {db : Db} {rooms : List (String × GameRoom)}
    {roomId sid : String} {room1 : GameRoom} {position now : Nat} {acc : List Emit}
    (hinv : ∀ e ∈ rooms, RoomInv e.2) (hroom1 : RoomInv room1) :
    ∀ e ∈ (placeAndResolve db rooms roomId sid room1 position now acc).1.rooms,
      RoomInv e.2 := by
  obtain ⟨R, hR, hpl, hbs, hlen, hst⟩ :=
    placeAndResolve_frame db rooms roomId sid room1 position now acc
  rw [hR]
  intro e he
  rcases mem_setRoom he with h | h
  · exact hinv e h
  · subst h
    refine ⟨?_, ?_, ?_⟩
    · rw [hpl]; exact hroom1.1
    · intro hstP
      rw [hpl]
      exact hroom1.2.1 ((hst hstP) ▸ hstP)
    · rw [hlen, hbs]; exact hroom1.2.2

theorem inv_createRoomH (st : ServerState) (sid roomId playerName : String)
    (boardSize : Nat) (fresh : String) (hinv : Inv st) :
    Inv (createRoomH st sid roomId playerName boardSize fresh).1 := by
  intro e he
  unfold createRoomH at he
  dsimp only at he
  rcases mem_setRoom he with h | h
  · exact hinv e h
  · subst h
    refine ⟨by simp, ?_, by simp [createGameRoom]⟩
    intro hst
    simp [createGameRoom] at hst

theorem inv_joinRoomH (st : ServerState) (sid roomId playerName : String)
    (hinv : Inv st) : Inv (joinRoomH st sid roomId playerName).1 := by
  unfold joinRoomH
  cases hlook : lookupRoom st.rooms roomId with
  | none => exact hinv
  | some gameRoom =>
    dsimp only
    by_cases hfull : 2 ≤ gameRoom.players.length
    · rw [if_pos hfull]
      exact hinv
    · rw [if_neg hfull]
      dsimp only
      intro e he
      rcases mem_setRoom he with h | h
      · exact hinv e h
      · subst h
        have hg := hinv _ (lookupRoom_mem hlook)
        have h1 : 1 ≤ gameRoom.players.length := hg.1
        have h3 : gameRoom.board.length = gameRoom.boardSize * gameRoom.boardSize :=
          hg.2.2
        refine ⟨?_, ?_, h3⟩
        · show 1 ≤ (gameRoom.players ++ [Player.mk sid playerName .O false
            (getUserCards (upsertUser st.db sid playerName) sid)]).length
          simp only [List.length_append, List.length_cons, List.length_nil]
          omega
        · intro _
          show (gameRoom.players ++ [Player.mk sid playerName .O false
            (getUserCards (upsertUser st.db sid playerName) sid)]).length = 2
          simp only [List.length_append, List.length_cons, List.length_nil]
          omega

theorem inv_makeMove (st : ServerState) (sid roomId : String) (position : Nat)
    (cardType : Option String) (now : Nat) (hinv : Inv st) :
    Inv (makeMove st sid roomId position cardType now).1 := by
  cases hlook : lookupRoom st.rooms roomId with
  | none => rw [makeMove_no_room hlook]; exact hinv
  | some room =>
    by_cases hs : room.status = .PLAYING
    · by_cases ht : room.currentTurn = sid
      · have hroom := hinv _ (lookupRoom_mem hlook)
        cases cardType with
        | none =>
          rw [makeMove_plain hlook hs ht]
          exact inv_placeAndResolve hinv hroom
        | some c =>
          by_cases hc : (useUserCard st.db sid c).2 = true
          · rw [makeMove_card_ok hlook hs ht hc]
            refine inv_placeAndResolve hinv ⟨hroom.1, fun h2 => hroom.2.1 h2, ?_⟩
            show (cardEffect room room.board sid roomId c position).1.length
              = room.boardSize * room.boardSize
            rw [cardEffect_board_length]
            exact hroom.2.2
          · rw [makeMove_card_unavailable hlook hs ht (by simpa using hc)]
            exact hinv
      · rw [makeMove_not_turn hlook hs ht]; exact hinv
    · rw [makeMove_not_playing hlook hs]; exact hinv

theorem getGameStateH_state (st : ServerState) (roomId : String) :
    (getGameStateH st roomId).1 = st := by
  unfold getGameStateH
  cases lookupRoom st.rooms roomId <;> rfl

theorem inv_disconnectH (st : ServerState) (sid : String) (hinv : Inv st) :
    Inv (disconnectH st sid).1 := by
  unfold disconnectH
  cases hfind : st.rooms.find? (fun e => e.2.players.any (fun p => p.id == sid)) with
  | none => exact hinv
  | some entry =>
    dsimp only
    by_cases hlen : (entry.2.players.eraseP (fun p => p.id == sid)).length = 0
    · rw [if_pos hlen]
      intro e he
      exact hinv e (List.mem_of_mem_filter he)
    · rw [if_neg hlen]
      dsimp only
      intro e he
      rcases mem_setRoom he with h | h
      · exact hinv e h
      · subst h
        have hent := hinv entry (List.mem_of_find?_eq_some hfind)
        have h3 : entry.2.board.length = entry.2.boardSize * entry.2.boardSize :=
          hent.2.2
        refine ⟨?_, ?_, h3⟩
        · show 1 ≤ (entry.2.players.eraseP (fun p => p.id == sid)).length
          omega
        · intro h
          simp at h

/-- Every reachable server state satisfies the per-room invariant. -/
theorem reachable_inv {st : ServerState} (h : Reachable st) : Inv st := by
  induction h with
  | init db => intro e he; cases he
  | step hr hstep ih =>
    cases hstep with
    | create sid roomId playerName boardSize fresh =>
      exact inv_createRoomH _ sid roomId playerName boardSize fresh ih
    | join sid roomId playerName =>
      exact inv_joinRoomH _ sid roomId playerName ih
    | move sid roomId position cardType now =>
      exact inv_makeMove _ sid roomId position cardType now ih
    | query roomId =>
      rw [getGameStateH_state]; exact ih
    | disconnect sid =>
      exact inv_disconnectH _ sid ih

/-- **C4 (amended).** In every reachable room state, status PLAYING implies
exactly 2 participants; but the second half of the claim fails on the code:
`winner == none` is not restored when a participant joins a previously
finished room (see the counterexample), so only the participant-count half
of the invariant is preserved by every operation. -/
theorem playing_implies_two_players (st : ServerState) (h : Reachable st)
    (roomId : String) (room : GameRoom)
    (hlook : lookupRoom st.rooms roomId = some room)
    (hs : room.status = .PLAYING) : room.players.length = 2 :=
  ((reachable_inv h) _ (lookupRoom_mem hlook)).2.1 hs

/-- Concrete instantiation of the C4 amended theorem at the reachable state
`s2`, whose room is PLAYING. -/
theorem playing_implies_two_players_witness : s2room.players.length = 2 :=
  playing_implies_two_players s2 reachable_s2 "r" s2room (by decide) (by decide)

/-- **C4 counterexample.** The state `j7` is reachable: a finished game
(winner X), the loser disconnects, a new participant joins. Its room is
PLAYING with two participants while `winner` is still `some X` — refuting
the claimed invariant `status == Playing → winner == none`. -/
theorem playing_with_stale_winner_cex :
    Reachable j7 ∧
    (lookupRoom j7.rooms "r").map (fun r => (r.status, r.winner, r.players.length))
      = some (Status.PLAYING, some Symbol.X, 2) :=
  ⟨reachable_j7, by decide⟩

/-- **C6 (amended).** In every reachable room state the board has length
exactly N², and hence every occupied cell index lies in [0, N²); but the
blocked-cell part of the claim fails on the code: the Block card performs no
bounds check on the client-supplied index, so the blocked-cell set can
contain indices outside [0, N²) (see the counterexample). -/
theorem board_length_invariant (st : ServerState) (h : Reachable st)
    (roomId : String) (room : GameRoom)
    (hlook : lookupRoom st.rooms roomId = some room) :
    room.board.length = room.boardSize * room.boardSize ∧
    (∀ i, (room.board.getD i none).isSome → i < room.boardSize * room.boardSize) := by
  have hr := (reachable_inv h) _ (lookupRoom_mem hlook)
  refine ⟨hr.2.2, ?_⟩
  intro i hi
  by_contra hlt
  push_neg at hlt
  rw [← hr.2.2] at hlt
  rw [List.getD_eq_default _ _ hlt] at hi
  simp at hi

/-- After a plays the Block card on out-of-range cell 99 in the 3×3 room. -/
def b99 : ServerState := (makeMove s2 "a" "r" 99 (some "BLOCK") 0).1

theorem reachable_b99 : Reachable b99 :=
  Reachable.step reachable_s2 (Step.move s2 "a" "r" 99 (some "BLOCK") 0)

/-- The room of `b99`. -/
def b99room : GameRoom := (lookupRoom b99.rooms "r").getD defaultRoom

/-- Concrete instantiation of the C6 amended theorem at the reachable state
`b99`. -/
theorem board_length_invariant_witness :
    b99room.board.length = b99room.boardSize * b99room.boardSize :=
  (board_length_invariant b99 reachable_b99 "r" b99room (by decide)).1

/-- **C6 counterexample.** In the reachable state `b99` the 3×3 room's
blocked-cell set is `[99]`, and 99 is not in [0, 9) — refuting the claim
that every index in the blocked-cell set lies in [0, N²). -/
theorem blocked_cell_out_of_range_cex :
    Reachable b99 ∧
    (lookupRoom b99.rooms "r").map (fun r => (r.boardSize, r.blockedCells))
      = some (3, [99]) ∧
    ¬ (99 < 3 * 3) :=
  ⟨reachable_b99, by decide, by decide⟩

/-! ## C5: room creation -/

/-- **C5 (amended).** `createRoom` never fails with AlreadyExists: the
handler stores a fresh room under the given id unconditionally, replacing
any room already registered there (see the counterexample; the source has no
existence check). The fresh room has an empty board of N² cells, status
Waiting, an empty blocked-cell set, an empty move log, no winner, and the
creator as sole participant holding symbol X and the turn. -/
theorem createRoom_initializes (st : ServerState) (sid roomId playerName : String)
    (boardSize : Nat) (fresh : String) :
    ∃ room, lookupRoom (createRoomH st sid roomId playerName boardSize fresh).1.rooms
        roomId = some room ∧
      room.board = List.replicate (boardSize * boardSize) none ∧
      room.status = .WAITING ∧
      room.blockedCells = [] ∧
      room.moveHistory = [] ∧
      room.winner = none ∧
      room.players.map (fun p => (p.id, p.symbol)) = [(sid, Symbol.X)] ∧
      room.currentTurn = sid ∧
      (∀ m, Emit.toSender (Msg.error m)
        ∉ (createRoomH st sid roomId playerName boardSize fresh).2) := by
  refine ⟨_, lookupRoom_setRoom_self st.rooms roomId _,
    rfl, rfl, rfl, rfl, rfl, rfl, rfl, ?_⟩
  intro m hmem
  simp only [createRoomH, List.mem_cons, List.not_mem_nil, or_false] at hmem
  rcases hmem with h | h <;> cases h

/-- After a second `createRoom` on the already-taken id `r`. -/
def s1b : ServerState := (createRoomH s1 "b" "r" "B" 4 "u2").1

theorem reachable_s1b : Reachable s1b :=
  Reachable.step
    (Reachable.step (Reachable.init db0) (Step.create s0 "a" "r" "A" 3 "u1"))
    (Step.create s1 "b" "r" "B" 4 "u2")

/-- **C5 counterexample.** Room `r` is taken (a's 3×3 room); a second
`createRoom` for the same id does not fail with AlreadyExists — it reports
success and replaces the existing room with b's fresh 4×4 room. -/
theorem createRoom_overwrites_taken_id_cex :
    (lookupRoom s1.rooms "r").map (fun r => (r.boardSize, r.players.map
      (fun p => p.id))) = some (3, ["a"]) ∧
    (lookupRoom s1b.rooms "r").map (fun r => (r.boardSize, r.players.map
      (fun p => p.id))) = some (4, ["b"]) ∧
    Emit.toSender (Msg.roomCreated "r" "b") ∈ (createRoomH s1 "b" "r" "B" 4 "u2").2 ∧
    Reachable s1b :=
  ⟨by decide, by decide, by decide, reachable_s1b⟩

/-! ## C7 / C10: card effects inside the move pipeline -/

theorem lookup_placeAndResolve_invalid {db : Db} {rooms : List (String × GameRoom)}
    {roomId sid : String} {room1 : GameRoom} {position now : Nat} {acc : List Emit}
    (hinv : (room1.board[position]? != some none
      || room1.blockedCells.contains position) = true) :
    lookupRoom (placeAndResolve db rooms roomId sid room1 position now acc).1.rooms
      roomId = some room1 := by
  rw [placeAndResolve_invalid hinv]
  exact lookupRoom_setRoom_self _ _ _

theorem cardEffect_swap_hit {room : GameRoom} {board : Board}
    {sid roomId : String} {position : Nat} {oppSym mySym : Symbol}
    {swapPos : Nat} {rest : List Nat}
    (hopp : (room.players.find? (fun p => p.id != sid)).map (fun p => p.symbol)
      = some oppSym)
    (htgt : board.getD position none = some oppSym)
    (hme : (room.players.find? (fun p => p.id == sid)).map (fun p => p.symbol)
      = some mySym)
    (hfil : (List.range board.length).filter
      (fun i => board.getD i none == some mySym) = swapPos :: rest) :
    cardEffect room board sid roomId "SWAP_CELL" position
      = ((board.set position (some mySym)).set swapPos (some oppSym),
         room.blockedCells, [.toRoom roomId (.cardUsed "Swap Cell" sid)]) := by
  unfold cardEffect
  rw [if_neg (by decide), if_neg (by decide), if_pos (by decide), hopp]
  dsimp only
  rw [if_pos (by simp only [beq_iff_eq]; exact htgt), hme]
  dsimp only
  rw [hfil]
  rfl

theorem cardEffect_swap_miss {room : GameRoom} {board : Board}
    {sid roomId : String} {position : Nat} {oppSym : Symbol}
    (hopp : (room.players.find? (fun p => p.id != sid)).map (fun p => p.symbol)
      = some oppSym)
    (htgt : board.getD position none ≠ some oppSym) :
    cardEffect room board sid roomId "SWAP_CELL" position
      = (board, room.blockedCells, []) := by
  unfold cardEffect
  rw [if_neg (by decide), if_neg (by decide), if_pos (by decide), hopp]
  dsimp only
  rw [if_neg (by simp only [beq_iff_eq]; exact htgt)]

/-- **C7.** The SwapCell card effect: when the target cell holds the
opponent's symbol, the acting participant's first occupied cell is located
and the two marks are exchanged; when the target cell is not
opponent-marked, the effect is a no-op on the board, and the subsequent
placement step still applies normally to the originally chosen cell. -/
theorem makeMove_swap_cell_spec (st : ServerState) (sid roomId : String)
    (position now : Nat) (room : GameRoom) (oppSym mySym : Symbol)
    (hlook : lookupRoom st.rooms roomId = some room)
    (hs : room.status = .PLAYING) (ht : room.currentTurn = sid)
    (hc : (useUserCard st.db sid "SWAP_CELL").2 = true)
    (hopp : (room.players.find? (fun p => p.id != sid)).map (fun p => p.symbol)
      = some oppSym)
    (hme : (room.players.find? (fun p => p.id == sid)).map (fun p => p.symbol)
      = some mySym) :
    (∀ swapPos rest,
      room.board.getD position none = some oppSym →
      (List.range room.board.length).filter
          (fun i => room.board.getD i none == some mySym) = swapPos :: rest →
      ∃ R, lookupRoom (makeMove st sid roomId position (some "SWAP_CELL") now).1.rooms
          roomId = some R ∧
        R.board = (room.board.set position (some mySym)).set swapPos (some oppSym) ∧
        R.blockedCells = room.blockedCells ∧
        R.moveHistory = room.moveHistory ∧
        R.currentTurn = room.currentTurn ∧
        R.status = room.status) ∧
    (room.board.getD position none ≠ some oppSym →
      (cardEffect room room.board sid roomId "SWAP_CELL" position).1 = room.board ∧
      ((room.board[position]? != some none
          || room.blockedCells.contains position) = false →
        ∃ me, room.players.find? (fun p => p.id == sid) = some me ∧
        ∃ R, lookupRoom
            (makeMove st sid roomId position (some "SWAP_CELL") now).1.rooms roomId
            = some R ∧
          R.board = room.board.set position (some me.symbol) ∧
          R.blockedCells = room.blockedCells ∧
          R.moveHistory = room.moveHistory
            ++ [MoveRec.mk position me.symbol sid now])) := by
  constructor
  · intro swapPos rest htgt hfil
    have hpos : position < room.board.length := by
      by_contra hge
      push_neg at hge
      rw [List.getD_eq_default _ _ hge] at htgt
      cases htgt
    rw [makeMove_card_ok hlook hs ht hc, cardEffect_swap_hit hopp htgt hme hfil]
    refine ⟨_, lookup_placeAndResolve_invalid ?_, rfl, rfl, rfl, rfl, rfl⟩
    show (((room.board.set position (some mySym)).set swapPos (some oppSym))[position]?
      != some none || room.blockedCells.contains position) = true
    by_cases hsp : swapPos = position
    · subst hsp
      rw [List.getElem?_set_self (by simpa using hpos)]
      simp
    · rw [List.getElem?_set_ne hsp, List.getElem?_set_self hpos]
      simp
  · intro htgt
    rw [cardEffect_swap_miss hopp htgt]
    refine ⟨rfl, ?_⟩
    intro hval
    obtain ⟨me, hfind, hsym⟩ := Option.map_eq_some'.mp hme
    refine ⟨me, hfind, ?_⟩
    rw [makeMove_card_ok hlook hs ht hc, cardEffect_swap_miss hopp htgt]
    obtain ⟨R, hR, hboard, hblocked, hplayers, hhist⟩ :=
      placeAndResolve_valid_board hval hfind
    exact ⟨R, by rw [hR]; exact lookupRoom_setRoom_self _ _ _, hboard, hblocked, hhist⟩

/-- **C10.** Consuming a DoubleMove card in `makeMove` changes nothing
except the card's holding counts and the `cardUsed` notification: the rest
of the call behaves exactly as the same call without a card against the
post-consumption database — the board, blocked-cell set and move resolution
are unaffected, no extra placement is granted, and after a legal
non-terminal placement the turn still passes to the other participant. -/
theorem makeMove_double_move_frame (st : ServerState) (sid roomId : String)
    (position now : Nat) (room : GameRoom)
    (hlook : lookupRoom st.rooms roomId = some room)
    (hs : room.status = .PLAYING) (ht : room.currentTurn = sid)
    (hc : (useUserCard st.db sid "DOUBLE_MOVE").2 = true) :
    (makeMove st sid roomId position (some "DOUBLE_MOVE") now
      = ((makeMove ⟨st.rooms, (useUserCard st.db sid "DOUBLE_MOVE").1⟩
            sid roomId position none now).1,
         .toRoom roomId (.cardUsed "Double Move" sid)
           :: (makeMove ⟨st.rooms, (useUserCard st.db sid "DOUBLE_MOVE").1⟩
            sid roomId position none now).2)) ∧
    (∀ currentPlayer nextPlayer,
      (room.board[position]? != some none
        || room.blockedCells.contains position) = false →
      room.players.find? (fun p => p.id == sid) = some currentPlayer →
      checkWinner (room.board.set position (some currentPlayer.symbol))
        room.boardSize = none →
      isBoardFull (room.board.set position (some currentPlayer.symbol)) = false →
      room.players.find? (fun p => p.id != sid) = some nextPlayer →
      ∃ R, lookupRoom (makeMove st sid roomId position (some "DOUBLE_MOVE") now).1.rooms
          roomId = some R ∧
        R.currentTurn = nextPlayer.id ∧
        R.board = room.board.set position (some currentPlayer.symbol) ∧
        R.blockedCells = room.blockedCells) := by
  constructor
  · rw [makeMove_card_ok hlook hs ht hc, cardEffect_double]
    rw [@makeMove_plain ⟨st.rooms, (useUserCard st.db sid "DOUBLE_MOVE").1⟩
      sid roomId position now room hlook hs ht]
    conv_lhs => rw [placeAndResolve_acc]
    rfl
  · intro currentPlayer nextPlayer hval hcp hw hfull hnp
    rw [makeMove_card_ok hlook hs ht hc, cardEffect_double]
    rw [placeAndResolve_nonterminal hval hcp hw hfull hnp]
    exact ⟨_, lookupRoom_setRoom_self _ _ _, rfl, rfl, rfl⟩

/-- The room of `m2` (X at 0, O at 3, a to play). -/
def m2room : GameRoom := (lookupRoom m2.rooms "r").getD defaultRoom

/-- Concrete instantiation of the C7 theorem: a plays SwapCell on cell 3
(which holds b's O); a's first occupied cell is 0, and the two marks are
exchanged. -/
theorem makeMove_swap_cell_spec_witness :
    ∃ R, lookupRoom (makeMove m2 "a" "r" 3 (some "SWAP_CELL") 0).1.rooms "r"
        = some R ∧
      R.board = (m2room.board.set 3 (some Symbol.X)).set 0 (some Symbol.O) ∧
      R.blockedCells = m2room.blockedCells ∧
      R.moveHistory = m2room.moveHistory ∧
      R.currentTurn = m2room.currentTurn ∧
      R.status = m2room.status :=
  (makeMove_swap_cell_spec m2 "a" "r" 3 0 m2room Symbol.O Symbol.X (by decide)
    (by decide) (by decide) (by decide) (by decide) (by decide)).1 0 [] (by decide)
    (by decide)

/-- Concrete instantiation of the C10 theorem: a consumes DoubleMove while
playing cell 1; the call equals the card-less call on the post-consumption
database plus the cardUsed broadcast. -/
theorem makeMove_double_move_frame_witness :
    makeMove m2 "a" "r" 1 (some "DOUBLE_MOVE") 0
      = ((makeMove ⟨m2.rooms, (useUserCard m2.db "a" "DOUBLE_MOVE").1⟩
            "a" "r" 1 none 0).1,
         .toRoom "r" (.cardUsed "Double Move" "a")
           :: (makeMove ⟨m2.rooms, (useUserCard m2.db "a" "DOUBLE_MOVE").1⟩
            "a" "r" 1 none 0).2) :=
  (makeMove_double_move_frame m2 "a" "r" 1 0 m2room (by decide) (by decide)
    (by decide) (by decide)).1

/-! ## C9: win streaks and automatic card grants -/

theorem find?_append_single {α} {q : α → Bool} {x : α} (hx : q x = false) :
    ∀ l : List α, (l ++ [x]).find? q = l.find? q := by
  intro l
  induction l with
  | nil =>
    rw [List.nil_append, List.find?_cons]
    simp [hx]
  | cons a rest ih =>
    rw [List.cons_append, List.find?_cons, List.find?_cons]
    cases hqa : q a <;> first | rfl | exact ih

theorem find?_updateFirst_other {α} (p q : α → Bool) (f : α → α)
    (hq : ∀ a, q (f a) = q a) (hpq : ∀ a, p a = true → q a = false) :
    ∀ l : List α, (updateFirst p f l).find? q = l.find? q := by
  intro l
  induction l with
  | nil => rfl
  | cons a rest ih =>
    unfold updateFirst
    by_cases hpa : p a = true
    · rw [if_pos hpa, List.find?_cons, List.find?_cons]
      rw [hq a, hpq a hpa]
    · rw [if_neg (by simp [hpa]), List.find?_cons, List.find?_cons]
      cases hqa : q a <;> first | rfl | exact ih

theorem awardCard_users (db : Db) (uid c : String) :
    (awardCard db uid c).users = db.users := by
  unfold awardCard
  rcases cardByType c with _ | cd
  · rfl
  · dsimp only
    rcases db.userCards.find? (isHolding uid c) with _ | uc <;> rfl

theorem isHolding_self (uid c : String) (q : Nat) (u : Nat) :
    isHolding uid c ⟨uid, c, q, u⟩ = true := by
  unfold isHolding
  simp

theorem awardCard_qty_self (db : Db) (uid c : String)
    (hcat : (cardByType c).isSome) :
    cardQty (awardCard db uid c) uid c = cardQty db uid c + 1 := by
  unfold awardCard cardQty
  rcases hcat2 : cardByType c with _ | cd
  · rw [hcat2] at hcat; cases hcat
  · dsimp only
    rcases hfind : db.userCards.find? (isHolding uid c) with _ | uc
    · dsimp only
      rw [find?_none_append (fun x hx => by
        simpa using List.find?_eq_none.mp hfind x hx)]
      rw [List.find?_cons_of_pos _ (isHolding_self uid c 1 0)]
    · dsimp only
      have hmap := find?_updateFirst (isHolding uid c)
        (fun r => { r with quantity := r.quantity + 1 })
        (isHolding_update_inv uid c _ (fun r => ⟨rfl, rfl⟩)) db.userCards
      rw [hmap, hfind, Option.map_some']

theorem isHolding_ne_type {uid c c2 : String} (hne : c2 ≠ c) :
    ∀ a, isHolding uid c a = true → isHolding uid c2 a = false := by
  intro a ha
  unfold isHolding at ha ⊢
  rw [Bool.and_eq_true] at ha
  have : a.cardType = c := by simpa using ha.2
  simp [this, hne, Ne.symm hne]

theorem awardCard_qty_other (db : Db) (uid c c2 : String) (hne : c2 ≠ c) :
    cardQty (awardCard db uid c) uid c2 = cardQty db uid c2 := by
  unfold awardCard cardQty
  rcases cardByType c with _ | cd
  · rfl
  · dsimp only
    rcases hfind : db.userCards.find? (isHolding uid c) with _ | uc
    · dsimp only
      rw [find?_append_single]
      unfold isHolding
      simp [hne, Ne.symm hne]
    · dsimp only
      rw [find?_updateFirst_other (isHolding uid c) (isHolding uid c2)
        (fun r => { r with quantity := r.quantity + 1 })
        (isHolding_update_inv uid c2 _ (fun r => ⟨rfl, rfl⟩))
        (isHolding_ne_type hne) db.userCards]

/-- **C9.** When recording a win outcome, a participant's streak counter
increments (and the win counter too), and a Protection card is granted
automatically exactly when the updated streak reaches 3 and a Giant card
exactly when it reaches 5 — the thresholds 3 and 5 are fixed constants in
the code; losses and draws reset the streak to 0 and leave the card
holdings untouched. -/
theorem updateUserStats_streak_grants (db : Db) (uid : String) (u : UserRec)
    (hu : db.users uid = some u) :
    ((updateUserStats db uid .win).users uid
      = some { u with wins := u.wins + 1, streak := u.streak + 1 }) ∧
    (u.streak + 1 = 3 →
      cardQty (updateUserStats db uid .win) uid "PROTECTION"
        = cardQty db uid "PROTECTION" + 1 ∧
      cardQty (updateUserStats db uid .win) uid "GIANT"
        = cardQty db uid "GIANT") ∧
    (u.streak + 1 = 5 →
      cardQty (updateUserStats db uid .win) uid "GIANT"
        = cardQty db uid "GIANT" + 1 ∧
      cardQty (updateUserStats db uid .win) uid "PROTECTION"
        = cardQty db uid "PROTECTION") ∧
    (u.streak + 1 ≠ 3 → u.streak + 1 ≠ 5 →
      (updateUserStats db uid .win).userCards = db.userCards) ∧
    ((updateUserStats db uid .loss).users uid
      = some { u with losses := u.losses + 1, streak := 0 }) ∧
    ((updateUserStats db uid .draw).users uid
      = some { u with draws := u.draws + 1, streak := 0 }) ∧
    ((updateUserStats db uid .loss).userCards = db.userCards) ∧
    ((updateUserStats db uid .draw).userCards = db.userCards) := by
  unfold updateUserStats
  rw [hu]
  dsimp only
  refine ⟨?_, ?_, ?_, ?_, ?_, ?_, rfl, rfl⟩
  · unfold setUser
    simp
  · intro h3
    rw [if_pos (by simpa using h3)]
    constructor
    · exact awardCard_qty_self db uid "PROTECTION" (by decide)
    · exact awardCard_qty_other db uid "PROTECTION" "GIANT" (by decide)
  · intro h5
    have hne3 : (u.streak + 1 == 3) = false := by
      simp only [beq_eq_false_iff_ne, ne_eq]
      omega
    rw [if_neg (by simp [hne3]), if_pos (by simpa using h5)]
    constructor
    · exact awardCard_qty_self db uid "GIANT" (by decide)
    · exact awardCard_qty_other db uid "GIANT" "PROTECTION" (by decide)
  · intro h3 h5
    rw [if_neg (by simpa using h3), if_neg (by simpa using h5)]
    rfl
  · unfold setUser
    simp
  · unfold setUser
    simp

/-- A start database for the C9 witness: user `w` with a 2-win streak and no
cards. -/
def dbW : Db := ⟨fun i => if i == "w" then some ⟨"W", 7, 1, 0, 2⟩ else none, []⟩

/-- Concrete instantiation of the C9 theorem: user `w` on a 2-win streak
wins again — the streak reaches 3 and exactly one Protection card is
granted, while the Giant count stays 0. -/
theorem updateUserStats_streak_grants_witness :
    dbW.users "w" = some ⟨"W", 7, 1, 0, 2⟩ ∧
    ((2 : Nat) + 1 = 3) ∧
    cardQty (updateUserStats dbW "w" .win) "w" "PROTECTION"
      = cardQty dbW "w" "PROTECTION" + 1 ∧
    cardQty (updateUserStats dbW "w" .win) "w" "GIANT" = cardQty dbW "w" "GIANT" :=
  ⟨by decide, by decide,
   (updateUserStats_streak_grants dbW "w" ⟨"W", 7, 1, 0, 2⟩ (by decide)).2.1 (by decide)⟩

/-! ## C8: the hard-difficulty AI -/

theorem le_foldl_max_init : ∀ (l : List Int) (a : Int), a ≤ l.foldl max a := by
  intro l
  induction l with
  | nil => intro a; exact le_refl a
  | cons b t ih => intro a; exact le_trans (le_max_left a b) (ih (max a b))

theorem le_foldl_max_mem : ∀ (l : List Int) (a x : Int), x ∈ l → x ≤ l.foldl max a := by
  intro l
  induction l with
  | nil => intro a x hx; cases hx
  | cons b t ih =>
    intro a x hx
    rcases List.mem_cons.mp hx with h | h
    · subst h
      exact le_trans (le_max_right a x) (le_foldl_max_init t (max a x))
    · exact ih (max a b) x h

theorem foldl_max_cases : ∀ (l : List Int) (a : Int),
    l.foldl max a = a ∨ l.foldl max a ∈ l := by
  intro l
  induction l with
  | nil => intro a; exact Or.inl rfl
  | cons b t ih =>
    intro a
    rw [List.foldl_cons]
    rcases ih (max a b) with h | h
    · rw [h]
      rcases max_choice a b with h2 | h2 <;> rw [h2]
      · exact Or.inl rfl
      · exact Or.inr (List.mem_cons_self b t)
    · exact Or.inr (List.mem_cons_of_mem b h)

theorem foldl_max_le : ∀ (l : List Int) (a B : Int), a ≤ B → (∀ x ∈ l, x ≤ B) →
    l.foldl max a ≤ B := by
  intro l
  induction l with
  | nil => intro a B ha _; exact ha
  | cons b t ih =>
    intro a B ha hl
    rw [List.foldl_cons]
    exact ih (max a b) B (max_le ha (hl b (List.mem_cons_self b t)))
      (fun x hx => hl x (List.mem_cons_of_mem b hx))

theorem foldl_min_le_init : ∀ (l : List Int) (a : Int), l.foldl min a ≤ a := by
  intro l
  induction l with
  | nil => intro a; exact le_refl a
  | cons b t ih => intro a; exact le_trans (ih (min a b)) (min_le_left a b)

theorem foldl_min_le_mem : ∀ (l : List Int) (a x : Int), x ∈ l → l.foldl min a ≤ x := by
  intro l
  induction l with
  | nil => intro a x hx; cases hx
  | cons b t ih =>
    intro a x hx
    rcases List.mem_cons.mp hx with h | h
    · subst h
      exact le_trans (foldl_min_le_init t (min a x)) (min_le_right a x)
    · exact ih (min a b) x h

theorem foldl_min_cases : ∀ (l : List Int) (a : Int),
    l.foldl min a = a ∨ l.foldl min a ∈ l := by
  intro l
  induction l with
  | nil => intro a; exact Or.inl rfl
  | cons b t ih =>
    intro a
    rw [List.foldl_cons]
    rcases ih (min a b) with h | h
    · rw [h]
      rcases min_choice a b with h2 | h2 <;> rw [h2]
      · exact Or.inl rfl
      · exact Or.inr (List.mem_cons_self b t)
    · exact Or.inr (List.mem_cons_of_mem b h)

theorem le_foldl_min : ∀ (l : List Int) (a B : Int), B ≤ a → (∀ x ∈ l, B ≤ x) →
    B ≤ l.foldl min a := by
  intro l
  induction l with
  | nil => intro a B ha _; exact ha
  | cons b t ih =>
    intro a B ha hl
    rw [List.foldl_cons]
    exact ih (min a b) B (le_min ha (hl b (List.mem_cons_self b t)))
      (fun x hx => hl x (List.mem_cons_of_mem b hx))

theorem countEmpty_eq_zero_iff_full : ∀ (board : Board),
    countEmpty board = 0 ↔ isBoardFull board = true := by
  intro board
  induction board with
  | nil => simp [countEmpty, isBoardFull]
  | cons c t ih =>
    cases c with
    | none => simp [countEmpty, isBoardFull]
    | some s =>
      show countEmpty t = 0 ↔ isBoardFull (some s :: t) = true
      unfold isBoardFull
      rw [List.all_cons]
      simp only [show (some s != none) = true from rfl, Bool.true_and]
      exact ih

theorem countEmpty_le_length : ∀ (board : Board), countEmpty board ≤ board.length := by
  intro board
  induction board with
  | nil => exact le_refl 0
  | cons c t ih =>
    cases c with
    | none => simpa [countEmpty] using ih
    | some s =>
      unfold countEmpty
      simp only [List.length_cons]
      omega

theorem countEmpty_set : ∀ (board : Board) (i : Nat) (s : Symbol),
    board.getD i none = none → i < board.length →
    countEmpty (board.set i (some s)) + 1 = countEmpty board := by
  intro board
  induction board with
  | nil => intro i s _ hlen; cases hlen
  | cons c t ih =>
    intro i s hi hlen
    cases i with
    | zero =>
      simp only [List.getD_cons_zero] at hi
      subst hi
      rfl
    | succ j =>
      simp only [List.getD_cons_succ] at hi
      have hjlen : j < t.length := by
        simp only [List.length_cons] at hlen
        omega
      cases c with
      | none =>
        show countEmpty (none :: t.set j (some s)) + 1 = countEmpty (none :: t)
        unfold countEmpty
        have := ih j s hi hjlen
        omega
      | some c2 =>
        show countEmpty (some c2 :: t.set j (some s)) + 1 = countEmpty (some c2 :: t)
        unfold countEmpty
        exact ih j s hi hjlen

theorem mem_emptyIdx {board : Board} {i : Nat} :
    i ∈ emptyIdx board ↔ i < board.length ∧ board.getD i none = none := by
  unfold emptyIdx
  rw [List.mem_filter, List.mem_range]
  simp only [beq_iff_eq]

theorem emptyIdx_ne_nil {board : Board} (hfull : isBoardFull board = false) :
    emptyIdx board ≠ [] := by
  have h2 : ¬ ∀ x ∈ board, (x != none) = true := by
    rw [← List.all_eq_true]
    simp [isBoardFull] at hfull
    simp [hfull]
  push_neg at h2
  obtain ⟨x, hx, hxne⟩ := h2
  have hxeq : x = none := by
    cases x with
    | none => rfl
    | some s => simp at hxne
  subst hxeq
  obtain ⟨i, hilen, hieq⟩ := List.mem_iff_getElem.mp hx
  intro hnil
  have hmem : i ∈ emptyIdx board := by
    refine mem_emptyIdx.mpr ⟨hilen, ?_⟩
    rw [List.getD_eq_getElem?_getD, List.getElem?_eq_getElem hilen, hieq]
    rfl
  rw [hnil] at hmem
  cases hmem

theorem minimaxF_win_O (fuel' : Nat) (board : Board) (size depth : Nat) (m : Bool)
    (h : checkWinner board size = some Symbol.O) :
    minimaxF (fuel' + 1) board size depth m = 10 - (depth : Int) := by
  unfold minimaxF
  rw [if_pos (by simp [h])]

theorem minimaxF_win_X (fuel' : Nat) (board : Board) (size depth : Nat) (m : Bool)
    (h : checkWinner board size = some Symbol.X) :
    minimaxF (fuel' + 1) board size depth m = (depth : Int) - 10 := by
  unfold minimaxF
  rw [if_neg (by simp [h]), if_pos (by simp [h])]

theorem minimaxF_draw (fuel' : Nat) (board : Board) (size depth : Nat) (m : Bool)
    (hw : checkWinner board size = none) (hfull : isBoardFull board = true) :
    minimaxF (fuel' + 1) board size depth m = 0 := by
  unfold minimaxF
  rw [if_neg (by simp [hw]), if_neg (by simp [hw]), if_pos hfull]

theorem minimaxF_succ_max (fuel' : Nat) (board : Board) (size depth : Nat)
    (hw : checkWinner board size = none) (hfull : isBoardFull board = false) :
    minimaxF (fuel' + 1) board size depth true
      = ((emptyIdx board).map
          (fun i => minimaxF fuel' (board.set i (some Symbol.O)) size (depth + 1) false)).foldl
          max negInf := by
  conv_lhs => unfold minimaxF
  rw [if_neg (by simp [hw]), if_neg (by simp [hw]), if_neg (by simp [hfull]),
    if_pos rfl]
  rw [List.foldl_map]

theorem minimaxF_succ_min (fuel' : Nat) (board : Board) (size depth : Nat)
    (hw : checkWinner board size = none) (hfull : isBoardFull board = false) :
    minimaxF (fuel' + 1) board size depth false
      = ((emptyIdx board).map
          (fun i => minimaxF fuel' (board.set i (some Symbol.X)) size (depth + 1) true)).foldl
          min posInf := by
  conv_lhs => unfold minimaxF
  rw [if_neg (by simp [hw]), if_neg (by simp [hw]), if_neg (by simp [hfull]),
    if_neg (by simp)]
  rw [List.foldl_map]

theorem minimaxF_bound : ∀ (fuel : Nat) (board : Board) (size depth : Nat) (m : Bool),
    -(10 + (depth : Int) + (fuel : Int)) ≤ minimaxF fuel board size depth m ∧
    minimaxF fuel board size depth m ≤ 10 + (depth : Int) + (fuel : Int) := by
  intro fuel
  induction fuel with
  | zero =>
    intro board size depth m
    have h0 : minimaxF 0 board size depth m = 0 := rfl
    rw [h0]
    constructor <;> omega
  | succ fuel' ih =>
    intro board size depth m
    rcases hw : checkWinner board size with _ | s
    · by_cases hfull : isBoardFull board = true
      · rw [minimaxF_draw fuel' board size depth m hw hfull]
        constructor <;> omega
      · have hfull2 : isBoardFull board = false := by simpa using hfull
        obtain ⟨i0, hi0⟩ := List.exists_mem_of_ne_nil _ (emptyIdx_ne_nil hfull2)
        have hcast : (10 : Int) + ((depth + 1 : Nat) : Int) + (fuel' : Int)
            = 10 + (depth : Int) + ((fuel' + 1 : Nat) : Int) := by
          push_cast
          ring
        cases m
        · rw [minimaxF_succ_min fuel' board size depth hw hfull2]
          constructor
          · refine le_foldl_min _ _ _ (by unfold posInf; omega) ?_
            intro x hx
            obtain ⟨j, hj, hje⟩ := List.mem_map.mp hx
            rw [← hje, ← hcast]
            exact (ih (board.set j (some Symbol.X)) size (depth + 1) true).1
          · refine le_trans (foldl_min_le_mem _ _ _ (List.mem_map_of_mem _ hi0)) ?_
            rw [← hcast]
            exact (ih (board.set i0 (some Symbol.X)) size (depth + 1) true).2
        · rw [minimaxF_succ_max fuel' board size depth hw hfull2]
          constructor
          · refine le_trans ?_ (le_foldl_max_mem _ _ _ (List.mem_map_of_mem _ hi0))
            rw [← hcast]
            exact (ih (board.set i0 (some Symbol.O)) size (depth + 1) false).1
          · refine foldl_max_le _ _ _ (by unfold negInf; omega) ?_
            intro x hx
            obtain ⟨j, hj, hje⟩ := List.mem_map.mp hx
            rw [← hje, ← hcast]
            exact (ih (board.set j (some Symbol.O)) size (depth + 1) false).2
    · cases s
      · rw [minimaxF_win_X fuel' board size depth m hw]
        constructor <;> omega
      · rw [minimaxF_win_O fuel' board size depth m hw]
        constructor <;> omega

theorem minimax_max_spec (board : Board) (size depth : Nat)
    (hw : checkWinner board size = none) (hfull : isBoardFull board = false)
    (hbound : (depth : Int) + (board.length : Int) ≤ 900) :
    (∃ i ∈ emptyIdx board, minimax board size depth true
        = minimax (board.set i (some Symbol.O)) size (depth + 1) false) ∧
    (∀ i ∈ emptyIdx board, minimax (board.set i (some Symbol.O)) size (depth + 1) false
        ≤ minimax board size depth true) := by
  have hchild : ∀ i ∈ emptyIdx board,
      minimaxF (countEmpty board) (board.set i (some Symbol.O)) size (depth + 1) false
        = minimax (board.set i (some Symbol.O)) size (depth + 1) false := by
    intro i hi
    obtain ⟨hilen, hiempty⟩ := mem_emptyIdx.mp hi
    unfold minimax
    rw [← countEmpty_set board i Symbol.O hiempty hilen]
  have hstep : minimax board size depth true
      = ((emptyIdx board).map
          (fun i => minimax (board.set i (some Symbol.O)) size (depth + 1) false)).foldl
          max negInf := by
    conv_lhs => unfold minimax
    rw [minimaxF_succ_max (countEmpty board) board size depth hw hfull]
    rw [List.map_congr_left hchild]
  rw [hstep]
  constructor
  · obtain ⟨i0, hi0⟩ := List.exists_mem_of_ne_nil _ (emptyIdx_ne_nil hfull)
    rcases foldl_max_cases ((emptyIdx board).map
        (fun i => minimax (board.set i (some Symbol.O)) size (depth + 1) false))
        negInf with hcase | hcase
    · exfalso
      have hle := le_foldl_max_mem _ negInf _ (List.mem_map_of_mem
        (fun i => minimax (board.set i (some Symbol.O)) size (depth + 1) false) hi0)
      rw [hcase] at hle
      simp only at hle
      have hb := (minimaxF_bound (countEmpty (board.set i0 (some Symbol.O)) + 1)
        (board.set i0 (some Symbol.O)) size (depth + 1) false).1
      have hcel : countEmpty (board.set i0 (some Symbol.O)) ≤ board.length := by
        have h2 := countEmpty_le_length (board.set i0 (some Symbol.O))
        rwa [List.length_set] at h2
      have hmm : minimax (board.set i0 (some Symbol.O)) size (depth + 1) false
          = minimaxF (countEmpty (board.set i0 (some Symbol.O)) + 1)
            (board.set i0 (some Symbol.O)) size (depth + 1) false := rfl
      rw [hmm] at hle
      unfold negInf at hle
      push_cast at hb hle hbound ⊢
      omega
    · obtain ⟨i, hi, hie⟩ := List.mem_map.mp hcase
      exact ⟨i, hi, hie.symm⟩
  · intro i hi
    exact le_foldl_max_mem _ negInf _ (List.mem_map_of_mem
      (fun i => minimax (board.set i (some Symbol.O)) size (depth + 1) false) hi)

theorem minimax_min_spec (board : Board) (size depth : Nat)
    (hw : checkWinner board size = none) (hfull : isBoardFull board = false)
    (hbound : (depth : Int) + (board.length : Int) ≤ 900) :
    (∃ i ∈ emptyIdx board, minimax board size depth false
        = minimax (board.set i (some Symbol.X)) size (depth + 1) true) ∧
    (∀ i ∈ emptyIdx board, minimax board size depth false
        ≤ minimax (board.set i (some Symbol.X)) size (depth + 1) true) := by
  have hchild : ∀ i ∈ emptyIdx board,
      minimaxF (countEmpty board) (board.set i (some Symbol.X)) size (depth + 1) true
        = minimax (board.set i (some Symbol.X)) size (depth + 1) true := by
    intro i hi
    obtain ⟨hilen, hiempty⟩ := mem_emptyIdx.mp hi
    unfold minimax
    rw [← countEmpty_set board i Symbol.X hiempty hilen]
  have hstep : minimax board size depth false
      = ((emptyIdx board).map
          (fun i => minimax (board.set i (some Symbol.X)) size (depth + 1) true)).foldl
          min posInf := by
    conv_lhs => unfold minimax
    rw [minimaxF_succ_min (countEmpty board) board size depth hw hfull]
    rw [List.map_congr_left hchild]
  rw [hstep]
  constructor
  · obtain ⟨i0, hi0⟩ := List.exists_mem_of_ne_nil _ (emptyIdx_ne_nil hfull)
    rcases foldl_min_cases ((emptyIdx board).map
        (fun i => minimax (board.set i (some Symbol.X)) size (depth + 1) true))
        posInf with hcase | hcase
    · exfalso
      have hle := foldl_min_le_mem _ posInf _ (List.mem_map_of_mem
        (fun i => minimax (board.set i (some Symbol.X)) size (depth + 1) true) hi0)
      rw [hcase] at hle
      simp only at hle
      have hb := (minimaxF_bound (countEmpty (board.set i0 (some Symbol.X)) + 1)
        (board.set i0 (some Symbol.X)) size (depth + 1) true).2
      have hcel : countEmpty (board.set i0 (some Symbol.X)) ≤ board.length := by
        have h2 := countEmpty_le_length (board.set i0 (some Symbol.X))
        rwa [List.length_set] at h2
      have hmm : minimax (board.set i0 (some Symbol.X)) size (depth + 1) true
          = minimaxF (countEmpty (board.set i0 (some Symbol.X)) + 1)
            (board.set i0 (some Symbol.X)) size (depth + 1) true := rfl
      rw [hmm] at hle
      unfold posInf at hle
      push_cast at hb hle hbound ⊢
      omega
    · obtain ⟨i, hi, hie⟩ := List.mem_map.mp hcase
      exact ⟨i, hi, hie.symm⟩
  · intro i hi
    exact foldl_min_le_mem _ posInf _ (List.mem_map_of_mem
      (fun i => minimax (board.set i (some Symbol.X)) size (depth + 1) true) hi)

/-- The loop body of `getBestMove`: keep the first strictly-better score. -/
def bestStep (board : Board) (size : Nat) (acc : Int × Int) (i : Nat) : Int × Int :=
  if board.getD i none == none then
    let score := minimax (board.set i (some .O)) size 0 false
    if acc.1 < score then (score, (i : Int)) else acc
  else acc

theorem getBestMove_eq_foldl (board : Board) (size : Nat) :
    getBestMove board size
      = ((List.range board.length).foldl (bestStep board size) (negInf, -1)).2 := rfl

theorem bestStep_fst_le (board : Board) (size : Nat) (acc : Int × Int) (i : Nat) :
    acc.1 ≤ (bestStep board size acc i).1 := by
  unfold bestStep
  by_cases h1 : (board.getD i none == none) = true
  · rw [if_pos h1]
    dsimp only
    by_cases h2 : acc.1 < minimax (board.set i (some Symbol.O)) size 0 false
    · rw [if_pos h2]
      exact le_of_lt h2
    · rw [if_neg h2]
  · rw [if_neg h1]

theorem foldl_bestStep_fst_le (board : Board) (size : Nat) :
    ∀ (l : List Nat) (acc : Int × Int),
    acc.1 ≤ (l.foldl (bestStep board size) acc).1 := by
  intro l
  induction l with
  | nil => intro acc; exact le_refl _
  | cons i t ih =>
    intro acc
    exact le_trans (bestStep_fst_le board size acc i) (ih (bestStep board size acc i))

theorem foldl_bestStep_dominates (board : Board) (size : Nat) :
    ∀ (l : List Nat) (acc : Int × Int) (j : Nat), j ∈ l →
    (board.getD j none == none) = true →
    minimax (board.set j (some Symbol.O)) size 0 false
      ≤ (l.foldl (bestStep board size) acc).1 := by
  intro l
  induction l with
  | nil => intro acc j hj; cases hj
  | cons i t ih =>
    intro acc j hj hempty
    rcases List.mem_cons.mp hj with h | h
    · subst h
      have h1 : minimax (board.set j (some Symbol.O)) size 0 false
          ≤ (bestStep board size acc j).1 := by
        unfold bestStep
        rw [if_pos hempty]
        dsimp only
        by_cases h2 : acc.1 < minimax (board.set j (some Symbol.O)) size 0 false
        · rw [if_pos h2]
        · rw [if_neg h2]
          exact le_of_not_lt h2
      exact le_trans h1 (foldl_bestStep_fst_le board size t _)
    · exact ih _ j h hempty

theorem foldl_bestStep_cases (board : Board) (size : Nat) :
    ∀ (l : List Nat) (acc : Int × Int),
    (l.foldl (bestStep board size) acc) = acc ∨
    ∃ i ∈ l, (board.getD i none == none) = true ∧
      (l.foldl (bestStep board size) acc)
        = (minimax (board.set i (some Symbol.O)) size 0 false, (i : Int)) ∧
      acc.1 < minimax (board.set i (some Symbol.O)) size 0 false := by
  intro l
  induction l with
  | nil => intro acc; exact Or.inl rfl
  | cons i t ih =>
    intro acc
    rw [List.foldl_cons]
    by_cases hempty : (board.getD i none == none) = true
    · by_cases hup : acc.1 < minimax (board.set i (some Symbol.O)) size 0 false
      · have hstep : bestStep board size acc i
            = (minimax (board.set i (some Symbol.O)) size 0 false, (i : Int)) := by
          unfold bestStep
          rw [if_pos hempty]
          dsimp only
          rw [if_pos hup]
        rw [hstep]
        rcases ih (minimax (board.set i (some Symbol.O)) size 0 false, (i : Int)) with
          h | ⟨k, hk, hke, hkeq, hklt⟩
        · exact Or.inr ⟨i, List.mem_cons_self i t, hempty, h, hup⟩
        · refine Or.inr ⟨k, List.mem_cons_of_mem i hk, hke, hkeq, lt_trans hup ?_⟩
          simpa using hklt
      · have hstep : bestStep board size acc i = acc := by
          unfold bestStep
          rw [if_pos hempty]
          dsimp only
          rw [if_neg hup]
        rw [hstep]
        rcases ih acc with h | ⟨k, hk, h1, h2, h3⟩
        · exact Or.inl h
        · exact Or.inr ⟨k, List.mem_cons_of_mem i hk, h1, h2, h3⟩
    · have hstep : bestStep board size acc i = acc := by
        unfold bestStep
        rw [if_neg hempty]
      rw [hstep]
      rcases ih acc with h | ⟨k, hk, h1, h2, h3⟩
      · exact Or.inl h
      · exact Or.inr ⟨k, List.mem_cons_of_mem i hk, h1, h2, h3⟩

theorem bestStep_no_update (board : Board) (size : Nat) (acc : Int × Int) (i : Nat)
    (hempty : (board.getD i none == none) = true)
    (hnup : ¬ acc.1 < minimax (board.set i (some Symbol.O)) size 0 false) :
    bestStep board size acc i = acc := by
  unfold bestStep
  rw [if_pos hempty]
  dsimp only
  rw [if_neg hnup]

theorem getBestMove_spec (board : Board) (size : Nat)
    (hne : emptyIdx board ≠ []) (hlen : (board.length : Int) ≤ 900) :
    ∃ i : Nat, getBestMove board size = (i : Int) ∧ i ∈ emptyIdx board ∧
      (∀ j ∈ emptyIdx board,
        minimax (board.set j (some Symbol.O)) size 0 false
          ≤ minimax (board.set i (some Symbol.O)) size 0 false) ∧
      (∀ j ∈ emptyIdx board, j < i →
        minimax (board.set j (some Symbol.O)) size 0 false
          < minimax (board.set i (some Symbol.O)) size 0 false) := by
  rcases foldl_bestStep_cases board size (List.range board.length) (negInf, -1) with
    hcase | ⟨i, hi, hie, hieq, hilt⟩
  · exfalso
    obtain ⟨i0, hi0⟩ := List.exists_mem_of_ne_nil _ hne
    obtain ⟨hi0len, hi0empty⟩ := mem_emptyIdx.mp hi0
    have hdom := foldl_bestStep_dominates board size (List.range board.length)
      (negInf, -1) i0 (List.mem_range.mpr hi0len) (by simp only [beq_iff_eq]; exact hi0empty)
    rw [hcase] at hdom
    simp only at hdom
    have hb := (minimaxF_bound (countEmpty (board.set i0 (some Symbol.O)) + 1)
      (board.set i0 (some Symbol.O)) size 0 false).1
    have hcel : countEmpty (board.set i0 (some Symbol.O)) ≤ board.length := by
      have h2 := countEmpty_le_length (board.set i0 (some Symbol.O))
      rwa [List.length_set] at h2
    have hmm : minimax (board.set i0 (some Symbol.O)) size 0 false
        = minimaxF (countEmpty (board.set i0 (some Symbol.O)) + 1)
          (board.set i0 (some Symbol.O)) size 0 false := rfl
    rw [hmm] at hdom
    unfold negInf at hdom
    push_cast at hb hdom hlen ⊢
    omega
  · have hinat : i < board.length := List.mem_range.mp hi
    have hiempty : board.getD i none = none := by simpa using hie
    have himem : i ∈ emptyIdx board := mem_emptyIdx.mpr ⟨hinat, hiempty⟩
    refine ⟨i, ?_, himem, ?_, ?_⟩
    · rw [getBestMove_eq_foldl, hieq]
    · intro j hj
      obtain ⟨hjlen, hjempty⟩ := mem_emptyIdx.mp hj
      have hdom := foldl_bestStep_dominates board size (List.range board.length)
        (negInf, -1) j (List.mem_range.mpr hjlen) (by simp only [beq_iff_eq]; exact hjempty)
      rw [hieq] at hdom
      simpa using hdom
    · intro j hj hji
      obtain ⟨hjlen, hjempty⟩ := mem_emptyIdx.mp hj
      have hrn : List.range board.length
          = (List.range i ++ [i])
            ++ (List.range (board.length - (i + 1))).map (fun k => (i + 1) + k) := by
        rw [← List.range_succ]
        rw [← List.range_add]
        congr 1
        omega
      have hfold1 : (List.range board.length).foldl (bestStep board size) (negInf, -1)
          = ((List.range (board.length - (i + 1))).map (fun k => (i + 1) + k)).foldl
              (bestStep board size)
              (bestStep board size
                ((List.range i).foldl (bestStep board size) (negInf, -1)) i) := by
        rw [hrn, List.foldl_append, List.foldl_append]
        rfl
      have hrest := foldl_bestStep_cases board size
        ((List.range (board.length - (i + 1))).map (fun k => (i + 1) + k))
        (bestStep board size ((List.range i).foldl (bestStep board size) (negInf, -1)) i)
      rw [← hfold1, hieq] at hrest
      rcases hrest with hrest | ⟨k, hk, hke, hkeq, hklt⟩
      · -- the final accumulator was produced by the step at index i
        have hup : ((List.range i).foldl (bestStep board size) (negInf, -1)).1
            < minimax (board.set i (some Symbol.O)) size 0 false := by
          by_contra hnup
          have hstepeq := bestStep_no_update board size
            ((List.range i).foldl (bestStep board size) (negInf, -1)) i
            (by simp only [beq_iff_eq]; exact hiempty) hnup
          rw [hstepeq] at hrest
          rcases foldl_bestStep_cases board size (List.range i) (negInf, -1) with
            hpre | ⟨k2, hk2, _, hk2eq, _⟩
          · rw [hpre] at hrest
            have : (i : Int) = -1 := congrArg Prod.snd hrest
            omega
          · rw [hk2eq] at hrest
            have h2 : (i : Int) = (k2 : Int) := congrArg Prod.snd hrest
            have h3 : i = k2 := by exact_mod_cast h2
            have h4 : k2 < i := List.mem_range.mp hk2
            omega
        have hdomj := foldl_bestStep_dominates board size (List.range i)
          (negInf, -1) j (List.mem_range.mpr hji) (by simp only [beq_iff_eq]; exact hjempty)
        exact lt_of_le_of_lt hdomj hup
      · -- impossible: a later index k > i cannot be the recorded move i
        exfalso
        have h2 : (i : Int) = (k : Int) := congrArg Prod.snd hkeq
        have h3 : i = k := by exact_mod_cast h2
        obtain ⟨t, _, hkt⟩ := List.mem_map.mp hk
        omega

/-- **C8.** The Optimal (hard) AI performs full minimax search to terminal
states maximizing the AI symbol O's score: a terminal O win at depth d
scores 10 − d, an X win at depth d scores d − 10, and a full drawn board
scores 0; at a non-terminal node the maximizing (resp. minimizing) player's
value is attained by some empty cell and bounds all empty cells from above
(resp. below); and `getBestMove` returns an empty cell whose O-reply score
is maximal, strictly beating every earlier empty cell — the
first-encountered move in cell-index order among equal scores. -/
theorem minimax_getBestMove_spec :
    (∀ (board : Board) (size depth : Nat) (m : Bool),
      checkWinner board size = some Symbol.O →
      minimax board size depth m = 10 - (depth : Int)) ∧
    (∀ (board : Board) (size depth : Nat) (m : Bool),
      checkWinner board size = some Symbol.X →
      minimax board size depth m = (depth : Int) - 10) ∧
    (∀ (board : Board) (size depth : Nat) (m : Bool),
      checkWinner board size = none → isBoardFull board = true →
      minimax board size depth m = 0) ∧
    (∀ (board : Board) (size depth : Nat),
      checkWinner board size = none → isBoardFull board = false →
      (depth : Int) + (board.length : Int) ≤ 900 →
      (∃ i ∈ emptyIdx board, minimax board size depth true
          = minimax (board.set i (some Symbol.O)) size (depth + 1) false) ∧
      (∀ i ∈ emptyIdx board,
        minimax (board.set i (some Symbol.O)) size (depth + 1) false
          ≤ minimax board size depth true)) ∧
    (∀ (board : Board) (size depth : Nat),
      checkWinner board size = none → isBoardFull board = false →
      (depth : Int) + (board.length : Int) ≤ 900 →
      (∃ i ∈ emptyIdx board, minimax board size depth false
          = minimax (board.set i (some Symbol.X)) size (depth + 1) true) ∧
      (∀ i ∈ emptyIdx board, minimax board size depth false
          ≤ minimax (board.set i (some Symbol.X)) size (depth + 1) true)) ∧
    (∀ (board : Board) (size : Nat), emptyIdx board ≠ [] →
      (board.length : Int) ≤ 900 →
      ∃ i : Nat, getBestMove board size = (i : Int) ∧ i ∈ emptyIdx board ∧
        (∀ j ∈ emptyIdx board,
          minimax (board.set j (some Symbol.O)) size 0 false
            ≤ minimax (board.set i (some Symbol.O)) size 0 false) ∧
        (∀ j ∈ emptyIdx board, j < i →
          minimax (board.set j (some Symbol.O)) size 0 false
            < minimax (board.set i (some Symbol.O)) size 0 false)) := by
  refine ⟨?_, ?_, ?_, minimax_max_spec, minimax_min_spec, getBestMove_spec⟩
  · intro board size depth m h
    exact minimaxF_win_O (countEmpty board) board size depth m h
  · intro board size depth m h
    exact minimaxF_win_X (countEmpty board) board size depth m h
  · intro board size depth m hw hfull
    exact minimaxF_draw (countEmpty board) board size depth m hw hfull

/-- Concrete instantiation of the C8 theorem: on a board where O has
completed the top row, minimax at depth 2 scores 10 − 2 for any player to
move. -/
theorem minimax_getBestMove_spec_witness :
    checkWinner [some Symbol.O, some Symbol.O, some Symbol.O, some Symbol.X,
      some Symbol.X, none, none, none, none] 3 = some Symbol.O ∧
    minimax [some Symbol.O, some Symbol.O, some Symbol.O, some Symbol.X,
      some Symbol.X, none, none, none, none] 3 2 true = 10 - (2 : Int) :=
  ⟨by decide,
   minimax_getBestMove_spec.1 [some Symbol.O, some Symbol.O, some Symbol.O,
     some Symbol.X, some Symbol.X, none, none, none, none] 3 2 true (by decide)⟩

end TTT
